import Mathlib

/-!
# Verification of the portal-formations content synchronization engine

Shallow embedding of the course import/export engine of the
`portal-formations` repository (admin JSON editors, game-content registry,
and the card-matching mini-game), together with theorems settling the
specification claims about it.

Source files embedded here:
- `src/pages/admin/AdminCourseEditJson.tsx` (`handleSave` = import,
  `fetchCourse` = export, `validateItemType` = type normalizer)
- `src/extensions/YouTube.ts` (`GameRegistry`, `extractGameContent`)
- the `CardMatchingGame` component (`handleCardClick`, `calculateScore`,
  `startGame`, `resetGame`)

JavaScript values flowing through these functions are modelled by `JsonVal`;
JavaScript truthiness, `x || d` defaulting, and `x ?? d` are modelled
explicitly.  Database rows are Lean structures; the Supabase store is a
record of row tables with a server-side id counter.  Each database *write*
is numbered, and a `failOps` schedule names the writes that fail, which
models storage failures at any point of the import.
-/

namespace Portal

/-! ## JSON values and JavaScript semantics helpers -/

/-- A JSON/JavaScript value (the `Record<string, any>` payloads of the code).
`num` is an integer: no claim involves fractional numbers. -/
inductive JsonVal where
  | null
  | bool (b : Bool)
  | num (n : Int)
  | str (s : String)
  | arr (elems : List JsonVal)
  | obj (fields : List (String × JsonVal))
  deriving Repr

mutual

/-- Structural equality of JSON values. -/
def JsonVal.beq : JsonVal → JsonVal → Bool
  | .null, .null => true
  | .bool a, .bool b => a == b
  | .num a, .num b => a == b
  | .str a, .str b => a == b
  | .arr xs, .arr ys => JsonVal.beqList xs ys
  | .obj xs, .obj ys => JsonVal.beqFields xs ys
  | _, _ => false

def JsonVal.beqList : List JsonVal → List JsonVal → Bool
  | [], [] => true
  | x :: xs, y :: ys => JsonVal.beq x y && JsonVal.beqList xs ys
  | _, _ => false

def JsonVal.beqFields : List (String × JsonVal) → List (String × JsonVal) → Bool
  | [], [] => true
  | (k1, v1) :: xs, (k2, v2) :: ys =>
    k1 == k2 && JsonVal.beq v1 v2 && JsonVal.beqFields xs ys
  | _, _ => false

end

mutual

theorem JsonVal.beq_iff : ∀ a b : JsonVal, JsonVal.beq a b = true ↔ a = b
  | .null, .null => by simp [JsonVal.beq]
  | .bool a, .bool b => by simp [JsonVal.beq]
  | .num a, .num b => by simp [JsonVal.beq]
  | .str a, .str b => by simp [JsonVal.beq]
  | .arr xs, .arr ys => by
    simp only [JsonVal.beq, JsonVal.beqList_iff xs ys, JsonVal.arr.injEq]
  | .obj xs, .obj ys => by
    simp only [JsonVal.beq, JsonVal.beqFields_iff xs ys, JsonVal.obj.injEq]
  | .null, .bool _ | .null, .num _ | .null, .str _ | .null, .arr _ | .null, .obj _
  | .bool _, .null | .bool _, .num _ | .bool _, .str _ | .bool _, .arr _ | .bool _, .obj _
  | .num _, .null | .num _, .bool _ | .num _, .str _ | .num _, .arr _ | .num _, .obj _
  | .str _, .null | .str _, .bool _ | .str _, .num _ | .str _, .arr _ | .str _, .obj _
  | .arr _, .null | .arr _, .bool _ | .arr _, .num _ | .arr _, .str _ | .arr _, .obj _
  | .obj _, .null | .obj _, .bool _ | .obj _, .num _ | .obj _, .str _ | .obj _, .arr _ => by
    simp [JsonVal.beq]

theorem JsonVal.beqList_iff : ∀ xs ys : List JsonVal, JsonVal.beqList xs ys = true ↔ xs = ys
  | [], [] => by simp [JsonVal.beqList]
  | x :: xs, y :: ys => by
    simp only [JsonVal.beqList, Bool.and_eq_true, JsonVal.beq_iff x y,
      JsonVal.beqList_iff xs ys, List.cons.injEq]
  | [], _ :: _ => by simp [JsonVal.beqList]
  | _ :: _, [] => by simp [JsonVal.beqList]

theorem JsonVal.beqFields_iff :
    ∀ xs ys : List (String × JsonVal), JsonVal.beqFields xs ys = true ↔ xs = ys
  | [], [] => by simp [JsonVal.beqFields]
  | (k1, v1) :: xs, (k2, v2) :: ys => by
    simp only [JsonVal.beqFields, Bool.and_eq_true, beq_iff_eq, JsonVal.beq_iff v1 v2,
      JsonVal.beqFields_iff xs ys, List.cons.injEq, Prod.mk.injEq]
  | [], _ :: _ => by simp [JsonVal.beqFields]
  | _ :: _, [] => by simp [JsonVal.beqFields]

end

instance : DecidableEq JsonVal := fun a b =>
  decidable_of_iff _ (JsonVal.beq_iff a b)

/-- JavaScript truthiness of a value (objects and arrays are always truthy). -/
def JsonVal.truthy : JsonVal → Bool
  | .null => false
  | .bool b => b
  | .num n => n != 0
  | .str s => s != ""
  | .arr _ => true
  | .obj _ => true

/-- `x || d` on a possibly-absent value: the default is used when the value
is absent or falsy. -/
def jsOr (x : Option JsonVal) (d : JsonVal) : JsonVal :=
  match x with
  | some v => if v.truthy then v else d
  | none => d

/-- `x || null` / `x || undefined` on a possibly-absent value. -/
def jsOrNull (x : Option JsonVal) : Option JsonVal :=
  match x with
  | some v => if v.truthy then some v else none
  | none => none

/-- `s || d` on a possibly-absent string (the empty string is falsy). -/
def jsStrOr (x : Option String) (d : String) : String :=
  match x with
  | some s => if s = "" then d else s
  | none => d

/-- `s || null` on a possibly-absent string. -/
def strOrNone (x : Option String) : Option String :=
  match x with
  | some s => if s = "" then none else some s
  | none => none

/-- `n || null` on a possibly-absent integer (`0` is falsy). -/
def intOrNone (x : Option Int) : Option Int :=
  match x with
  | some n => if n = 0 then none else some n
  | none => none

/-- Field access `v.key` on a JSON value: `undefined` off objects. -/
def JsonVal.getField (v : JsonVal) (key : String) : Option JsonVal :=
  match v with
  | .obj fields => (fields.find? (fun kv => kv.1 = key)).map (fun kv => kv.2)
  | _ => none

/-- `typeof v === 'object'` (true for objects, arrays and `null`). -/
def JsonVal.isObjectType : JsonVal → Bool
  | .obj _ => true
  | .arr _ => true
  | .null => true
  | _ => false

/-! ## Card-matching mini-game (`CardMatchingGame`)

State and transitions of the card-matching game component.  React state
updates are applied in program order; the mismatch flip-back scheduled with
`setTimeout` is modelled as a separate transition `flipBackTimeout` taking
the pair of card ids captured by the closure.  `startTime`/`elapsedTime`
carry the wall clock sampled at `startGame`. -/

structure Card where
  id : String
  text : String
  pairId : String
  flipped : Bool
  matched : Bool
  deriving Repr, DecidableEq

structure GameState where
  cards : List Card
  flippedCards : List String
  matchedPairs : Nat
  attempts : Nat
  gameStarted : Bool
  gameFinished : Bool
  startTime : Option Nat
  elapsedTime : Nat
  deriving Repr, DecidableEq

/-- `setCards(prev => prev.map(c => c.id === cardId ? {...c, flipped: true} : c))` -/
def flipCard (cardId : String) (c : Card) : Card :=
  if c.id = cardId then { c with flipped := true } else c

/-- The match branch: every card of the matched pair becomes
`matched: true, flipped: true`. -/
def markMatched (pairId : String) (c : Card) : Card :=
  if c.pairId = pairId then { c with matched := true, flipped := true } else c

/-- `handleCardClick`.  Returns the new state plus, on a mismatch, the two
card ids captured by the scheduled `setTimeout` flip-back. -/
def handleCardClick (s : GameState) (cardId : String) :
    GameState × Option (List String) :=
  if ¬ s.gameStarted ∨ s.gameFinished then (s, none)
  else if s.flippedCards.length ≥ 2 then (s, none)
  else
    match s.cards.find? (fun c => c.id = cardId) with
    | none => (s, none)
    | some card =>
      if card.flipped ∨ card.matched then (s, none)
      else
        -- first setCards: flip the clicked card
        let cards1 := s.cards.map (flipCard cardId)
        let newFlippedCards := s.flippedCards ++ [cardId]
        if newFlippedCards.length = 2 then
          -- the pair lookup reads the pre-click `cards` closure value
          let firstCard := s.cards.find? (fun c => some c.id = newFlippedCards.head?)
          let secondCard := s.cards.find? (fun c => c.id = cardId)
          match firstCard, secondCard with
          | some fc, some sc =>
            if fc.pairId = sc.pairId then
              ({ s with cards := cards1.map (markMatched fc.pairId),
                        matchedPairs := s.matchedPairs + 1,
                        flippedCards := [] }, none)
            else
              -- mismatch: attempts++, flip-back scheduled; `flippedCards`
              -- is only cleared by the timeout
              ({ s with cards := cards1, attempts := s.attempts + 1 },
               some newFlippedCards)
          | _, _ =>
            ({ s with cards := cards1, attempts := s.attempts + 1 },
             some newFlippedCards)
        else
          ({ s with cards := cards1, flippedCards := newFlippedCards }, none)

/-- The `setTimeout` body of the mismatch branch: flip the captured cards
back face-down unless they have been matched meanwhile, clear
`flippedCards`. -/
def flipBackTimeout (s : GameState) (pending : List String) : GameState :=
  { s with
    cards := s.cards.map (fun c =>
      if pending.contains c.id ∧ ¬ c.matched then { c with flipped := false } else c),
    flippedCards := [] }

/-- `startGame` (explicit start: resets all counters, the clock, and the
per-card flags). -/
def startGame (s : GameState) (now : Nat) : GameState :=
  { s with
    gameStarted := true,
    startTime := some now,
    elapsedTime := 0,
    attempts := 0,
    matchedPairs := 0,
    gameFinished := false,
    flippedCards := [],
    cards := s.cards.map (fun c => { c with flipped := false, matched := false }) }

/-- `resetGame`. -/
def resetGame (s : GameState) : GameState :=
  { s with
    gameStarted := false,
    gameFinished := false,
    flippedCards := [],
    matchedPairs := 0,
    attempts := 0,
    elapsedTime := 0,
    startTime := none,
    cards := s.cards.map (fun c => { c with flipped := false, matched := false }) }

/-- `calculateScore`: `time` is the elapsed whole seconds
(`Math.floor((Date.now() - startTime) / 1000)`), `attempts` the mismatch
counter.  `Math.floor` of the integer sum is the identity and is therefore
not written. -/
def calculateScore (time : Nat) (attempts : Nat) : Int :=
  let timeScore : Int := max 0 (1000 - (time : Int) * 10)
  let attemptsScore : Int := max 0 (1000 - (attempts : Int) * 50)
  max 0 (timeScore + attemptsScore)

/-! ## Item types and the type normalizer (`validateItemType`) -/

/-- The closed item type enumeration (`types/database.ts`). -/
inductive ItemType where
  | resource
  | slide
  | exercise
  | tp
  | game
  deriving Repr, DecidableEq

/-- The canonical string of an item type, as stored in the `items.type`
column. -/
def ItemType.toDbString : ItemType → String
  | .resource => "resource"
  | .slide => "slide"
  | .exercise => "exercise"
  | .tp => "tp"
  | .game => "game"

/-- The chapter `type` column: `'content' | 'game'`. -/
inductive ChapterType where
  | content
  | game
  deriving Repr, DecidableEq

/-- Errors thrown inside `handleSave`.  `itemError` is the wrapper
`` `Erreur dans l'item "..." : ...` `` added around per-item validation
failures; `invalidType` carries the raw input and the allowed set exactly as
the thrown message
`` `Type d'item invalide: "<raw>". Types autorisés: resource, slide, exercise, tp, game` ``
does; `dbError` records which numbered store write failed. -/
inductive ImportError where
  | missingCourseId
  | courseNotFound
  | typeRequired
  | invalidType (raw : String) (allowed : List ItemType)
  | itemError (label : String) (err : ImportError)
  | dbError (op : Nat)
  deriving Repr, DecidableEq

instance {e a : Type} [DecidableEq e] [DecidableEq a] : DecidableEq (Except e a) := fun x y =>
  match x, y with
  | .ok u, .ok v => decidable_of_iff (u = v) (by simp)
  | .error u, .error v => decidable_of_iff (u = v) (by simp)
  | .ok _, .error _ => isFalse (by simp)
  | .error _, .ok _ => isFalse (by simp)

/-- The allowed set named in the `invalidType` error message. -/
def allowedItemTypes : List ItemType :=
  [.resource, .slide, .exercise, .tp, .game]

/-- JavaScript `String.prototype.toLowerCase` restricted to the Latin-1
letters that occur in the synonym table: ASCII `A`–`Z` and `À`–`Þ` (except
`×`) are lowered by adding 32, everything else is unchanged. -/
def jsToLowerChar (c : Char) : Char :=
  if ('A' ≤ c ∧ c ≤ 'Z') ∨ ('À' ≤ c ∧ c ≤ 'Þ' ∧ c ≠ '×') then
    Char.ofNat (c.toNat + 32)
  else c

def jsToLower (s : String) : String :=
  ⟨s.data.map jsToLowerChar⟩

/-- The whitespace removed by `String.prototype.trim` (the characters that
can occur in the documents at hand: space, tab, newline, carriage return,
form feed, vertical tab). -/
def isJsWhitespace (c : Char) : Bool :=
  c = ' ' ∨ c = '\t' ∨ c = '\n' ∨ c = '\r' ∨ c = '\x0c' ∨ c = '\x0b'

/-- `String.prototype.trim`: strip leading and trailing whitespace. -/
def jsTrim (s : String) : String :=
  ⟨((s.data.dropWhile isJsWhitespace).reverse.dropWhile isJsWhitespace).reverse⟩

/-- The synonym table `typeMap` of `validateItemType`, key for key. -/
def typeMap : List (String × ItemType) :=
  [("resource", .resource),
   ("slide", .slide),
   ("slides", .slide),
   ("exercise", .exercise),
   ("exercice", .exercise),
   ("exercises", .exercise),
   ("case", .exercise),
   ("case-study", .exercise),
   ("case study", .exercise),
   ("étude de cas", .exercise),
   ("etude de cas", .exercise),
   ("tp", .tp),
   ("travaux-pratiques", .tp),
   ("travaux pratiques", .tp),
   ("game", .game),
   ("jeu", .game),
   ("games", .game),
   ("jeux", .game)]

/-- `typeMap[normalizedType]`. -/
def typeMapLookup (s : String) : Option ItemType :=
  (typeMap.find? (fun kv => kv.1 = s)).map (fun kv => kv.2)

/-- `validateItemType` of `AdminCourseEditJson.handleSave`.  `if (!type)`
is a JavaScript truthiness test, so a missing type *and* the empty string
both throw `Le type d'item est requis.`; any other unmappable string throws
the invalid-type error carrying the raw value and the allowed set. -/
def validateItemType (type : Option String) : Except ImportError ItemType :=
  match type with
  | none => .error .typeRequired
  | some t =>
    if t = "" then .error .typeRequired
    else
      let normalizedType := jsTrim (jsToLower t)
      match typeMapLookup normalizedType with
      | some validType => .ok validType
      | none => .error (.invalidType t allowedItemTypes)

/-! ## The Document model (`CourseJson`)

The JSON document exchanged with the editor, shaped exactly as
`handleSave`/`fetchCourse` consume and produce it.  Fields the code probes
for presence are `Option`s. -/

structure ChapterJson where
  title : Option String
  position : Int
  content : Option JsonVal
  type : Option String
  game_content : Option JsonVal
  published : Option Bool
  deriving Repr, DecidableEq

structure ItemJson where
  type : Option String
  title : Option String
  position : Option Int
  published : Option Bool
  content : Option JsonVal
  asset_path : Option String
  external_url : Option String
  chapters : Option (List ChapterJson)
  deriving Repr, DecidableEq

structure ModuleJson where
  title : String
  position : Int
  items : Option (List ItemJson)
  deriving Repr, DecidableEq

structure CourseJson where
  title : String
  description : Option String
  status : String
  access_type : String
  price_cents : Option Int
  currency : Option String
  theme : Option JsonVal
  modules : List ModuleJson
  deriving Repr, DecidableEq

/-! ## The relational store

Row types mirror `types/database.ts` (timestamps, which no claim mentions,
are not carried).  Ids are naturals handed out by the store's `nextId`
counter — the client never supplies them.  `opCount` numbers the store
*writes* performed so far; a write whose number is listed in the `failOps`
schedule of an operation fails, modelling a storage failure at that point. -/

structure CourseRow where
  id : Nat
  title : String
  description : Option String
  status : String
  access_type : String
  price_cents : Option Int
  currency : Option String
  is_paid : Bool
  created_by : String
  deriving Repr, DecidableEq

structure ModuleRow where
  id : Nat
  course_id : Nat
  title : String
  position : Int
  deriving Repr, DecidableEq

structure ItemRow where
  id : Nat
  module_id : Nat
  type : ItemType
  title : String
  position : Int
  published : Bool
  content : JsonVal
  asset_path : Option String
  external_url : Option String
  deriving Repr, DecidableEq

structure ChapterRow where
  id : Nat
  item_id : Nat
  title : Option String
  position : Int
  content : Option JsonVal
  type : ChapterType
  game_content : Option JsonVal
  published : Bool
  deriving Repr, DecidableEq

structure Store where
  courses : List CourseRow
  modules : List ModuleRow
  items : List ItemRow
  chapters : List ChapterRow
  nextId : Nat
  opCount : Nat
  deriving Repr, DecidableEq

def emptyStore : Store :=
  { courses := [], modules := [], items := [], chapters := [],
    nextId := 0, opCount := 0 }

/-! ## Tree import (`AdminCourseEditJson.handleSave`) -/

/-- The chapter `type` guard of the chapter mapping:
`(ch.type === 'content' || ch.type === 'game') ? ch.type : 'content'` —
anything unrecognized silently becomes `content`. -/
def validChapterType (t : Option String) : ChapterType :=
  match t with
  | some "content" => ChapterType.content
  | some "game" => ChapterType.game
  | _ => ChapterType.content

/-- One element of `chaptersData` (plus the store-assigned id). -/
def chapterRowOf (itemId : Nat) (id : Nat) (ch : ChapterJson) : ChapterRow :=
  { id := id,
    item_id := itemId,
    title := ch.title,
    position := ch.position,
    content := jsOrNull ch.content,
    type := validChapterType ch.type,
    game_content := jsOrNull ch.game_content,
    published := ch.published.getD true }

/-- Ids assigned to a batched chapter insert, in array order. -/
def assignChapterIds (itemId : Nat) (base : Nat) : List ChapterJson → List ChapterRow
  | [] => []
  | ch :: rest => chapterRowOf itemId base ch :: assignChapterIds itemId (base + 1) rest

/-- An element of `itemsData` before the store assigns its id. -/
structure ItemData where
  module_id : Nat
  type : ItemType
  title : String
  position : Int
  published : Bool
  content : JsonVal
  asset_path : Option String
  external_url : Option String
  deriving Repr, DecidableEq

/-- One element of the `module.items.map((item, index) => ...)` builder;
an invalid type is re-thrown wrapped in the item's label. -/
def itemDataOf (moduleId : Nat) (index : Nat) (item : ItemJson) :
    Except ImportError ItemData :=
  match validateItemType item.type with
  | .error e => .error (.itemError (jsStrOr item.title s!"à la position {index + 1}") e)
  | .ok validatedType =>
    .ok { module_id := moduleId,
          type := validatedType,
          title := jsStrOr item.title s!"Item {index + 1}",
          position := item.position.getD (index : Int),
          published := item.published ≠ some false,
          content := jsOr item.content (.obj []),
          asset_path := strOrNone item.asset_path,
          external_url := strOrNone item.external_url }

/-- `module.items.map(...)`: JavaScript `map` propagates the first thrown
error. -/
def buildItemsData (moduleId : Nat) (index : Nat) :
    List ItemJson → Except ImportError (List ItemData)
  | [] => .ok []
  | item :: rest =>
    match itemDataOf moduleId index item with
    | .error e => .error e
    | .ok d =>
      match buildItemsData moduleId (index + 1) rest with
      | .error e => .error e
      | .ok ds => .ok (d :: ds)

/-- Ids assigned to a batched item insert, in array order. -/
def assignItemIds (base : Nat) : List ItemData → List ItemRow
  | [] => []
  | d :: rest =>
    { id := base, module_id := d.module_id, type := d.type, title := d.title,
      position := d.position, published := d.published, content := d.content,
      asset_path := d.asset_path, external_url := d.external_url }
      :: assignItemIds (base + 1) rest

/-- The per-item chapter loop.  A failed chapter insert is logged and
*swallowed* (`// Ne pas bloquer la sauvegarde si les chapitres échouent`),
so this loop never throws: it returns only the store. -/
def insertChaptersForItems (failOps : List Nat) :
    Store → List (ItemRow × ItemJson) → Store
  | st, [] => st
  | st, (savedItem, originalItem) :: rest =>
    let st :=
      match originalItem.chapters with
      | some chs =>
        if chs.length > 0 then
          let op := st.opCount
          let st := { st with opCount := op + 1 }
          if op ∈ failOps then
            st  -- error logged, save not blocked
          else
            { st with
              chapters := st.chapters ++ assignChapterIds savedItem.id st.nextId chs,
              nextId := st.nextId + chs.length }
        else st
      | none => st
    insertChaptersForItems failOps st rest

/-- The module-row insert
(`supabase.from('modules').insert({course_id, title, position}).select().single()`);
returns the store-assigned module id. -/
def insertModuleRow (failOps : List Nat) (st : Store) (courseId : Nat)
    (module : ModuleJson) : Store × Except ImportError Nat :=
  let op := st.opCount
  let st := { st with opCount := op + 1 }
  if op ∈ failOps then (st, .error (.dbError op))
  else
    ({ st with
       modules := st.modules ++
         [{ id := st.nextId, course_id := courseId,
            title := module.title, position := module.position }],
       nextId := st.nextId + 1 },
     .ok st.nextId)

/-- The batched item insert (`supabase.from('items').insert(itemsData).select()`):
one write; the store assigns ids in array order and returns the saved rows. -/
def insertItemsBatch (failOps : List Nat) (st : Store) (itemsData : List ItemData) :
    Store × Except ImportError (List ItemRow) :=
  let op := st.opCount
  let st := { st with opCount := op + 1 }
  if op ∈ failOps then (st, .error (.dbError op))
  else
    let savedItems := assignItemIds st.nextId itemsData
    ({ st with
       items := st.items ++ savedItems,
       nextId := st.nextId + itemsData.length },
     .ok savedItems)

/-- One iteration of `for (const module of parsedJson.modules)`: insert the
module row, batch-insert its items, then insert each item's chapters. -/
def importModule (failOps : List Nat) (st : Store) (courseId : Nat)
    (module : ModuleJson) : Store × Except ImportError Unit :=
  match insertModuleRow failOps st courseId module with
  | (st, .error e) => (st, .error e)
  | (st, .ok moduleId) =>
    match module.items with
    | some items =>
      if items.length > 0 then
        match buildItemsData moduleId 0 items with
        | .error e => (st, .error e)
        | .ok itemsData =>
          match insertItemsBatch failOps st itemsData with
          | (st, .error e) => (st, .error e)
          | (st, .ok savedItems) =>
            if savedItems.length = 0 then (st, .ok ())  -- warn + continue
            else (insertChaptersForItems failOps st (savedItems.zip items), .ok ())
      else (st, .ok ())
    | none => (st, .ok ())

/-- The module loop; the first thrown error aborts the remaining
iterations (already-written rows stay). -/
def importModules (failOps : List Nat) :
    Store → Nat → List ModuleJson → Store × Except ImportError Unit
  | st, _, [] => (st, .ok ())
  | st, courseId, module :: rest =>
    match importModule failOps st courseId module with
    | (st, .error e) => (st, .error e)
    | (st, .ok ()) => importModules failOps st courseId rest

/-- The `courseData` object built at the top of `handleSave` (without the
`updated_at` timestamp). -/
structure CourseData where
  title : String
  description : Option String
  status : String
  access_type : String
  price_cents : Option Int
  currency : String
  is_paid : Bool
  created_by : String
  deriving Repr, DecidableEq

def courseDataOf (doc : CourseJson) (userId : String) : CourseData :=
  { title := doc.title,
    description := doc.description,
    status := doc.status,
    access_type := doc.access_type,
    price_cents := intOrNone doc.price_cents,
    currency := jsStrOr doc.currency "EUR",
    is_paid := doc.access_type = "paid",
    created_by := userId }

/-- `update(courseData)` applied to an existing row: every `courseData`
field — `created_by` included — is overwritten; only the id survives. -/
def applyCourseData (row : CourseRow) (d : CourseData) : CourseRow :=
  { id := row.id,
    title := d.title,
    description := d.description,
    status := d.status,
    access_type := d.access_type,
    price_cents := d.price_cents,
    currency := some d.currency,
    is_paid := d.is_paid,
    created_by := d.created_by }

/-- Deleting module rows cascades to their items and chapters
(`ON DELETE CASCADE` on the foreign keys, relied upon by the
`// Supprimer les anciens modules et items` step). -/
def deleteModulesCascade (st : Store) (moduleIds : List Nat) : Store :=
  let goneItemIds :=
    (st.items.filter (fun i => moduleIds.contains i.module_id)).map (fun i => i.id)
  { st with
    modules := st.modules.filter (fun m => ¬ moduleIds.contains m.id),
    items := st.items.filter (fun i => ¬ moduleIds.contains i.module_id),
    chapters := st.chapters.filter (fun c => ¬ goneItemIds.contains c.item_id) }

/-- Mode création: `supabase.from('courses').insert(courseData).select().single()`. -/
def createCourseRow (failOps : List Nat) (st : Store) (courseData : CourseData) :
    Store × Except ImportError Nat :=
  let op := st.opCount
  let st := { st with opCount := op + 1 }
  if op ∈ failOps then (st, .error (.dbError op))
  else
    ({ st with
       courses := st.courses ++
         [{ id := st.nextId, title := courseData.title,
            description := courseData.description,
            status := courseData.status,
            access_type := courseData.access_type,
            price_cents := courseData.price_cents,
            currency := some courseData.currency,
            is_paid := courseData.is_paid,
            created_by := courseData.created_by }],
       nextId := st.nextId + 1 },
     .ok st.nextId)

/-- Mode édition: check the course exists (a read), then
`supabase.from('courses').update(courseData).eq('id', courseId)`. -/
def updateCourseRow (failOps : List Nat) (st : Store) (cid : Nat)
    (courseData : CourseData) : Store × Except ImportError Nat :=
  match st.courses.find? (fun c => c.id = cid) with
  | none => (st, .error .courseNotFound)
  | some _ =>
    let op := st.opCount
    let st := { st with opCount := op + 1 }
    if op ∈ failOps then (st, .error (.dbError op))
    else
      ({ st with
         courses := st.courses.map (fun c =>
           if c.id = cid then applyCourseData c courseData else c) },
       .ok cid)

/-- `Supprimer les anciens modules et items` (update path only): read the
old module ids, then one delete write whose result — error included — is
not checked. -/
def deleteOldSubtree (failOps : List Nat) (st : Store) (finalCourseId : Nat) :
    Store :=
  let oldModules := st.modules.filter (fun m => m.course_id = finalCourseId)
  if oldModules.length > 0 then
    let op := st.opCount
    let st := { st with opCount := op + 1 }
    if op ∈ failOps then st  -- delete failed silently: nothing removed
    else deleteModulesCascade st (oldModules.map (fun m => m.id))
  else st

/-- `handleSave`: the full import.  `courseId = none` is the create path
(`isNew`), `some cid` the update path.  The returned store is the state
after whatever writes happened before a throw — the `catch` block only
formats the error message, it undoes nothing. -/
def handleSave (st : Store) (failOps : List Nat) (userId : String)
    (courseId : Option Nat) (doc : CourseJson) :
    Store × Except ImportError Nat :=
  let courseData := courseDataOf doc userId
  let step1 : Store × Except ImportError Nat :=
    match courseId with
    | none => createCourseRow failOps st courseData
    | some cid => updateCourseRow failOps st cid courseData
  match step1 with
  | (st, .error e) => (st, .error e)
  | (st, .ok finalCourseId) =>
    let st :=
      if courseId.isSome then deleteOldSubtree failOps st finalCourseId
      else st
    match importModules failOps st finalCourseId doc.modules with
    | (st, .error e) => (st, .error e)
    | (st, .ok ()) => (st, .ok finalCourseId)

/-! ## Tree export (`AdminCourseEditJson.fetchCourse`)

`fetchCourse` reconstructs the `CourseJson` document from the store:
modules ordered by `position` (the store's `order('position')`), items
client-sorted by `position` per module, chapters fetched in one batched
position-ordered query and grouped by `item_id`.  Grouping a
position-ordered list by key yields, per key, that key's rows in position
order, which is written here directly as a per-item filter-and-sort. -/

def posLeM (a b : ModuleRow) : Prop := a.position ≤ b.position

def posLeI (a b : ItemRow) : Prop := a.position ≤ b.position

def posLeC (a b : ChapterRow) : Prop := a.position ≤ b.position

instance : DecidableRel posLeM := fun _ _ => Int.decLe _ _
instance : DecidableRel posLeI := fun _ _ => Int.decLe _ _
instance : DecidableRel posLeC := fun _ _ => Int.decLe _ _

/-- The chapter objects put into `chaptersMap`: only `title`, `position`
and `content` are read back; `type`, `game_content` and `published` are
not part of the exported document. -/
def exportChapter (ch : ChapterRow) : ChapterJson :=
  { title := ch.title,
    position := ch.position,
    content := jsOrNull ch.content,
    type := none,
    game_content := none,
    published := none }

def exportItem (st : Store) (item : ItemRow) : ItemJson :=
  let chs := List.insertionSort posLeC
    (st.chapters.filter (fun c => c.item_id = item.id))
  { type := some item.type.toDbString,
    title := some item.title,
    position := some item.position,
    published := some item.published,
    content := some (if item.content.truthy then item.content else .obj []),
    asset_path := strOrNone item.asset_path,
    external_url := strOrNone item.external_url,
    chapters := if chs.length = 0 then none else some (chs.map exportChapter) }

def exportModule (st : Store) (module : ModuleRow) : ModuleJson :=
  { title := module.title,
    position := module.position,
    items := some ((List.insertionSort posLeI
      (st.items.filter (fun i => i.module_id = module.id))).map (exportItem st)) }

/-- `fetchCourse`: `none` when the course row does not exist. -/
def exportCourse (st : Store) (courseId : Nat) : Option CourseJson :=
  match st.courses.find? (fun c => c.id = courseId) with
  | none => none
  | some courseData =>
    let modulesData := List.insertionSort posLeM
      (st.modules.filter (fun m => m.course_id = courseId))
    some
      { title := courseData.title,
        description := some (courseData.description.getD ""),
        status := courseData.status,
        access_type := courseData.access_type,
        price_cents := intOrNone courseData.price_cents,
        currency := strOrNone courseData.currency,
        theme := none,
        modules := modulesData.map (exportModule st) }

/-! ## Game content registry and `extractGameContent` (`extensions/YouTube.ts`) -/

/-- `Array.isArray(x) && x.length > 0` on a field of a config object. -/
def nonEmptyArrayField (config : JsonVal) (key : String) : Bool :=
  match config.getField key with
  | some (.arr elems) => elems.length > 0
  | _ => false

/-- The `validateConfig` of the built-in `matching` registry entry:
`Array.isArray(config.pairs) && config.pairs.length > 0`. -/
def matchingValidateConfig (config : JsonVal) : Bool :=
  nonEmptyArrayField config "pairs"

/-- The `validateConfig` of the built-in `column-matching` entry. -/
def columnMatchingValidateConfig (config : JsonVal) : Bool :=
  (match config.getField "leftColumn" with | some (.arr _) => true | _ => false) &&
  (match config.getField "rightColumn" with | some (.arr _) => true | _ => false) &&
  (match config.getField "correctMatches" with | some (.arr _) => true | _ => false) &&
  nonEmptyArrayField config "leftColumn" &&
  nonEmptyArrayField config "rightColumn"

/-- Size of the value held by a field, bounded by the object's size
(termination measure for `extractGameContentRec`). -/
theorem JsonVal.sizeOf_getField {v inner : JsonVal} {key : String}
    (h : v.getField key = some inner) : sizeOf inner < sizeOf v := by
  match v with
  | .null | .bool _ | .num _ | .str _ | .arr _ => simp [JsonVal.getField] at h
  | .obj fields =>
    simp only [JsonVal.getField, Option.map_eq_some'] at h
    obtain ⟨kv, hfind, hv⟩ := h
    have hmem := List.mem_of_find?_eq_some hfind
    have h1 : sizeOf kv < sizeOf fields := List.sizeOf_lt_of_mem hmem
    have h2 : sizeOf inner < sizeOf kv := by
      subst hv
      cases kv
      simp
    have h3 : sizeOf fields < sizeOf (JsonVal.obj fields) := by
      simp
    omega

/-- The tail of `extractGameContent` once no further wrapper is found:
`if (!gameContent.gameType) return null; return gameContent as GameConfig`. -/
def extractFinish (gc : JsonVal) : Option JsonVal :=
  match gc.getField "gameType" with
  | some t => if t.truthy then some gc else none
  | none => none

/-- The recursive part of `extractGameContent`, entered once the value is
not a string: unwrap `game_content` wrappers
(`if (gameContent.game_content && typeof gameContent.game_content === 'object')`)
all the way down, then finish with the `gameType` check. -/
def extractGameContentRec (gc : JsonVal) : Option JsonVal :=
  match h : gc.getField "game_content" with
  | some inner =>
    if inner.truthy && inner.isObjectType then
      extractGameContentRec inner
    else extractFinish gc
  | none => extractFinish gc
termination_by sizeOf gc
decreasing_by exact JsonVal.sizeOf_getField h

/-- Unfolding equation of `extractGameContentRec` without the dependent
match. -/
theorem extractGameContentRec_eq (gc : JsonVal) :
    extractGameContentRec gc =
      match gc.getField "game_content" with
      | some inner =>
        if inner.truthy && inner.isObjectType then
          extractGameContentRec inner
        else extractFinish gc
      | none => extractFinish gc := by
  rw [extractGameContentRec.eq_def]
  split
  · rename_i inner h
    rw [h]
  · rename_i h
    rw [h]

/-- `extractGameContent(gameContent)`.  `parse` stands for `JSON.parse`
(`none` = parse error, which the `catch` turns into `null`); the function
assumes — as every call site in the repository does — that a parsed string
payload yields an object. -/
def extractGameContent (parse : String → Option JsonVal)
    (gameContent : Option JsonVal) : Option JsonVal :=
  match gameContent with
  | none => none
  | some gc =>
    if ¬ gc.truthy then none
    else
      match gc with
      | .str s =>
        match parse s with
        | some parsed => extractGameContentRec parsed
        | none => none
      | _ => extractGameContentRec gc

/-! ## Lemmas about the card game -/

/-- `cs'` keeps every matched card of `cs` matched, and keeps it face-up if
it was face-up (positions line up index by index, as the transitions are
maps over the card list). -/
def matchedPreserved (cs cs' : List Card) : Prop :=
  ∀ (i : Nat) (h : i < cs.length) (h' : i < cs'.length),
    ((cs.get ⟨i, h⟩).matched = true → (cs'.get ⟨i, h'⟩).matched = true)
    ∧ ((cs.get ⟨i, h⟩).matched = true ∧ (cs.get ⟨i, h⟩).flipped = true →
        (cs'.get ⟨i, h'⟩).flipped = true)

theorem matchedPreserved_refl (cs : List Card) : matchedPreserved cs cs := by
  intro i h h'
  exact ⟨fun hm => hm, fun hf => hf.2⟩

theorem matchedPreserved_map (cs : List Card) (f : Card → Card)
    (hf : ∀ c, c.matched = true →
      (f c).matched = true ∧ (c.flipped = true → (f c).flipped = true)) :
    matchedPreserved cs (cs.map f) := by
  intro i h h'
  simp only [List.get_eq_getElem, List.getElem_map]
  refine ⟨fun hm => (hf _ hm).1, fun hmf => (hf _ hmf.1).2 hmf.2⟩

theorem flipCard_matched (cardId : String) (c : Card) :
    (flipCard cardId c).matched = c.matched := by
  unfold flipCard
  split <;> rfl

theorem flipCard_flipped (cardId : String) (c : Card) (h : c.flipped = true) :
    (flipCard cardId c).flipped = true := by
  unfold flipCard
  split <;> simp [h]

theorem markMatched_matched (pairId : String) (c : Card) (h : c.matched = true) :
    (markMatched pairId c).matched = true := by
  unfold markMatched
  split <;> simp [h]

theorem markMatched_flipped (pairId : String) (c : Card) (h : c.flipped = true) :
    (markMatched pairId c).flipped = true := by
  unfold markMatched
  split <;> simp [h]

theorem matchedPreserved_click (s : GameState) (cardId : String) :
    matchedPreserved s.cards (handleCardClick s cardId).1.cards := by
  have hflip : ∀ c : Card, c.matched = true →
      (flipCard cardId c).matched = true ∧
      (c.flipped = true → (flipCard cardId c).flipped = true) := by
    intro c hm
    exact ⟨(flipCard_matched cardId c).trans hm, flipCard_flipped cardId c⟩
  unfold handleCardClick
  dsimp only
  split
  · exact matchedPreserved_refl _
  split
  · exact matchedPreserved_refl _
  split
  · exact matchedPreserved_refl _
  rename_i card _
  split
  · exact matchedPreserved_refl _
  split
  · split
    · split
      · rw [List.map_map]
        refine matchedPreserved_map _ _ (fun c hm => ?_)
        refine ⟨markMatched_matched _ _ (hflip c hm).1, fun hf => ?_⟩
        exact markMatched_flipped _ _ ((hflip c hm).2 hf)
      · exact matchedPreserved_map _ _ hflip
    · exact matchedPreserved_map _ _ hflip
  · exact matchedPreserved_map _ _ hflip

theorem matchedPreserved_flipBack (s : GameState) (pending : List String) :
    matchedPreserved s.cards (flipBackTimeout s pending).cards := by
  unfold flipBackTimeout
  refine matchedPreserved_map _ _ (fun c hm => ?_)
  have hcond : ¬ (pending.contains c.id ∧ ¬ c.matched = true) := by
    intro hc
    exact hc.2 hm
  simp only [if_neg hcond]
  exact ⟨hm, fun hf => hf⟩

theorem startGame_clears (s : GameState) (now : Nat) (i : Nat)
    (h : i < (startGame s now).cards.length) :
    ((startGame s now).cards.get ⟨i, h⟩).matched = false ∧
    ((startGame s now).cards.get ⟨i, h⟩).flipped = false := by
  unfold startGame at h ⊢
  simp only [List.get_eq_getElem, List.getElem_map]
  simp

theorem resetGame_clears (s : GameState) (i : Nat)
    (h : i < (resetGame s).cards.length) :
    ((resetGame s).cards.get ⟨i, h⟩).matched = false ∧
    ((resetGame s).cards.get ⟨i, h⟩).flipped = false := by
  unfold resetGame at h ⊢
  simp only [List.get_eq_getElem, List.getElem_map]
  simp

/-! ## Claim theorems: mini-game scoring and session invariant -/

/-- C9: for every finished card-matching session with elapsed whole seconds
`time` and mismatch count `attempts`, the emitted score is
`max(0, 1000 - 10*time) + max(0, 1000 - 50*attempts)` (the floor is the
identity on this integer sum and the outer clamp at 0 is subsumed, since
both summands are already clamped at 0); in particular a session with
`attempts = 0` finishing at `time = 5` scores 1950. -/
theorem card_matching_score_formula :
    (∀ time attempts : Nat,
      calculateScore time attempts =
        max 0 (1000 - (time : Int) * 10) + max 0 (1000 - (attempts : Int) * 50))
    ∧ calculateScore 5 0 = 1950 := by
  constructor
  · intro time attempts
    unfold calculateScore
    exact max_eq_right (add_nonneg (le_max_left 0 _) (le_max_left 0 _))
  · decide

/-- C10: once a card is matched it stays matched — and stays face-up — under
every card click and under the mismatch flip-back delay (which skips matched
cards); only an explicit `startGame` or `resetGame` clears the matched
flags (both reset every card to unmatched and face-down). -/
theorem matched_cards_persist :
    (∀ (s : GameState) (cardId : String),
      matchedPreserved s.cards (handleCardClick s cardId).1.cards)
    ∧ (∀ (s : GameState) (pending : List String),
      matchedPreserved s.cards (flipBackTimeout s pending).cards)
    ∧ (∀ (s : GameState) (now : Nat) (i : Nat)
        (h : i < (startGame s now).cards.length),
        ((startGame s now).cards.get ⟨i, h⟩).matched = false)
    ∧ (∀ (s : GameState) (i : Nat) (h : i < (resetGame s).cards.length),
        ((resetGame s).cards.get ⟨i, h⟩).matched = false) :=
  ⟨matchedPreserved_click, matchedPreserved_flipBack,
   fun s now i h => (startGame_clears s now i h).1,
   fun s i h => (resetGame_clears s i h).1⟩

/-- A concrete in-progress session: card "a" already matched and face-up,
card "b" still hidden. -/
def gameS0 : GameState :=
  { cards := [{ id := "a", text := "t", pairId := "p", flipped := true, matched := true },
              { id := "b", text := "d", pairId := "p", flipped := false, matched := false }],
    flippedCards := [],
    matchedPairs := 1,
    attempts := 0,
    gameStarted := true,
    gameFinished := false,
    startTime := some 0,
    elapsedTime := 3 }

/-- Witness for C10: on the concrete session `gameS0`, the flip-back of a
mismatch containing card "a" leaves "a" matched, a further click leaves it
matched, and `startGame` clears it. -/
theorem matched_cards_persist_witness :
    (((flipBackTimeout gameS0 ["a", "b"]).cards.get ⟨0, by decide⟩).matched = true)
    ∧ (((handleCardClick gameS0 "b").1.cards.get ⟨0, by decide⟩).matched = true)
    ∧ (((startGame gameS0 9).cards.get ⟨0, by decide⟩).matched = false) := by
  refine ⟨?_, ?_, ?_⟩
  · exact (matched_cards_persist.2.1 gameS0 ["a", "b"] 0 (by decide) (by decide)).1
      (by decide)
  · exact (matched_cards_persist.1 gameS0 "b" 0 (by decide) (by decide)).1 (by decide)
  · exact matched_cards_persist.2.2.1 gameS0 9 0 (by decide)

/-! ## Claim theorems: type normalization (C5) -/

/-- C5 counterexample: the empty string is a raw string that cannot be
mapped, yet `validateItemType` rejects it through the JavaScript truthiness
guard `if (!type)` with the *type-required* error, not with an
`InvalidTypeError` carrying the raw value and the allowed set. -/
theorem item_type_empty_string_not_invalid_type_error :
    validateItemType (some "") = .error .typeRequired
    ∧ validateItemType (some "") ≠ .error (.invalidType "" allowedItemTypes) := by
  exact ⟨rfl, by decide⟩

/-- C5 (amended): item type normalization lowercases, trims, and maps the
known synonyms onto the closed enumeration; every *non-empty* raw string
that cannot be mapped fails with the invalid-type error carrying the raw
value and the allowed set, and every success comes from the synonym table —
never from a silent default.  (A missing or empty type instead fails with
the distinct `Le type d'item est requis.` error.) -/
theorem item_type_normalization :
    validateItemType (some "Étude de cas") = .ok .exercise
    ∧ validateItemType (some "  GAME  ") = .ok .game
    ∧ validateItemType (some "jeu") = .ok .game
    ∧ validateItemType (some "jeux") = .ok .game
    ∧ validateItemType (some "travaux pratiques") = .ok .tp
    ∧ validateItemType (some "bogus") = .error (.invalidType "bogus" allowedItemTypes)
    ∧ (∀ raw : String, raw ≠ "" → typeMapLookup (jsTrim (jsToLower raw)) = none →
        validateItemType (some raw) = .error (.invalidType raw allowedItemTypes))
    ∧ (∀ (raw : String) (t : ItemType), validateItemType (some raw) = .ok t →
        typeMapLookup (jsTrim (jsToLower raw)) = some t) := by
  refine ⟨by decide, by decide, by decide, by decide, by decide, by decide, ?_, ?_⟩
  · intro raw hne hnone
    simp [validateItemType, hne, hnone]
  · intro raw t hok
    by_cases hraw : raw = ""
    · simp [validateItemType, hraw] at hok
    · simp only [validateItemType, if_neg hraw] at hok
      cases hlk : typeMapLookup (jsTrim (jsToLower raw)) with
      | none => simp [hlk] at hok
      | some u => simp [hlk] at hok; simp [hok]

/-- Witness for C5: the amended rejection clause applied at the concrete
unmappable raw string "zzz". -/
theorem item_type_normalization_witness :
    validateItemType (some "zzz") = .error (.invalidType "zzz" allowedItemTypes) :=
  item_type_normalization.2.2.2.2.2.2.1 "zzz" (by decide) (by decide)

/-! ## Claim theorems: game-content extraction (C7) -/

/-- A well-formed `matching` config. -/
def innerMatching : JsonVal :=
  .obj [("gameType", .str "matching"),
        ("pairs", .arr [.obj [("term", .str "a"), ("definition", .str "b")]])]

/-- The same config accidentally wrapped in `game_content` twice. -/
def doubleWrapped : JsonVal :=
  .obj [("game_content", .obj [("game_content", innerMatching)])]

/-- C7 counterexample: a payload nested *two* levels deep is not a
validation failure — `extractGameContent` keeps unwrapping and returns the
innermost config (which here even validates). -/
theorem extract_game_content_unwraps_two_levels :
    extractGameContent (fun _ => none) (some doubleWrapped) = some innerMatching
    ∧ matchingValidateConfig innerMatching = true := by
  constructor
  · show extractGameContentRec doubleWrapped = some innerMatching
    rw [extractGameContentRec_eq]
    simp +decide [doubleWrapped, JsonVal.getField, JsonVal.truthy, JsonVal.isObjectType]
    rw [extractGameContentRec_eq]
    simp +decide [JsonVal.getField, JsonVal.truthy, JsonVal.isObjectType]
    rw [extractGameContentRec_eq]
    simp +decide [innerMatching, JsonVal.getField, JsonVal.truthy, extractFinish]
  · rfl

/-- C7 (amended): unwrapping is fully recursive — wrapping any object
payload in one more `game_content` layer never changes the extraction
result, at every depth; extraction then succeeds iff the innermost value
carries a truthy `gameType`. -/
theorem extract_game_content_unwrap_identity :
    ∀ (parse : String → Option JsonVal) (fields : List (String × JsonVal)),
      extractGameContent parse (some (.obj [("game_content", .obj fields)])) =
      extractGameContent parse (some (.obj fields)) := by
  intro parse fields
  show extractGameContentRec (.obj [("game_content", .obj fields)]) =
    extractGameContentRec (.obj fields)
  rw [extractGameContentRec_eq]
  simp +decide [JsonVal.getField, JsonVal.truthy, JsonVal.isObjectType]

/-! ## Structural lemmas about the import loops

The import loops only append rows: nothing written by an earlier iteration
is ever removed by a later one or by an abort, and the course table is
never touched after the upsert step. -/

theorem insertChaptersForItems_appends (failOps : List Nat)
    (ps : List (ItemRow × ItemJson)) (st : Store) :
    ∃ cs, (insertChaptersForItems failOps st ps).courses = st.courses
      ∧ (insertChaptersForItems failOps st ps).modules = st.modules
      ∧ (insertChaptersForItems failOps st ps).items = st.items
      ∧ (insertChaptersForItems failOps st ps).chapters = st.chapters ++ cs := by
  induction ps generalizing st with
  | nil => exact ⟨[], rfl, rfl, rfl, (List.append_nil _).symm⟩
  | cons p ps ih =>
    obtain ⟨savedItem, originalItem⟩ := p
    show ∃ cs, (insertChaptersForItems failOps _ ps).courses = _ ∧ _
    cases horig : originalItem.chapters with
    | none =>
      obtain ⟨cs, h1, h2, h3, h4⟩ := ih _
      exact ⟨cs, by simpa [insertChaptersForItems, horig] using ⟨h1, h2, h3, h4⟩⟩
    | some chs =>
      by_cases hlen : chs.length > 0
      · by_cases hfail : st.opCount ∈ failOps
        · obtain ⟨cs, h1, h2, h3, h4⟩ :=
            ih { st with opCount := st.opCount + 1 }
          exact ⟨cs, by simpa [insertChaptersForItems, horig, hlen, hfail]
            using ⟨h1, h2, h3, h4⟩⟩
        · obtain ⟨cs, h1, h2, h3, h4⟩ :=
            ih { st with
              opCount := st.opCount + 1,
              chapters := st.chapters ++ assignChapterIds savedItem.id st.nextId chs,
              nextId := st.nextId + chs.length }
          refine ⟨assignChapterIds savedItem.id st.nextId chs ++ cs, ?_⟩
          simp only [insertChaptersForItems, horig, if_pos hlen, hfail,
            Bool.false_eq_true, if_neg, ite_false]
          exact ⟨h1, h2, h3, by rw [h4, List.append_assoc]⟩
      · obtain ⟨cs, h1, h2, h3, h4⟩ := ih st
        exact ⟨cs, by simpa [insertChaptersForItems, horig, hlen]
          using ⟨h1, h2, h3, h4⟩⟩

theorem insertModuleRow_appends (failOps : List Nat) (st : Store) (cid : Nat)
    (m : ModuleJson) :
    ∃ ms, (insertModuleRow failOps st cid m).1.courses = st.courses
      ∧ (insertModuleRow failOps st cid m).1.modules = st.modules ++ ms
      ∧ (insertModuleRow failOps st cid m).1.items = st.items
      ∧ (insertModuleRow failOps st cid m).1.chapters = st.chapters := by
  unfold insertModuleRow
  by_cases hfail : st.opCount ∈ failOps
  · exact ⟨[], by simp [hfail]⟩
  · exact ⟨[{ id := st.nextId, course_id := cid, title := m.title,
              position := m.position }], by simp [hfail]⟩

theorem insertItemsBatch_appends (failOps : List Nat) (st : Store)
    (ds : List ItemData) :
    ∃ is, (insertItemsBatch failOps st ds).1.courses = st.courses
      ∧ (insertItemsBatch failOps st ds).1.modules = st.modules
      ∧ (insertItemsBatch failOps st ds).1.items = st.items ++ is
      ∧ (insertItemsBatch failOps st ds).1.chapters = st.chapters := by
  unfold insertItemsBatch
  by_cases hfail : st.opCount ∈ failOps
  · exact ⟨[], by simp [hfail]⟩
  · exact ⟨assignItemIds st.nextId ds, by simp [hfail]⟩

theorem importModule_appends (failOps : List Nat) (st : Store) (cid : Nat)
    (m : ModuleJson) :
    ∃ ms is cs, (importModule failOps st cid m).1.courses = st.courses
      ∧ (importModule failOps st cid m).1.modules = st.modules ++ ms
      ∧ (importModule failOps st cid m).1.items = st.items ++ is
      ∧ (importModule failOps st cid m).1.chapters = st.chapters ++ cs := by
  unfold importModule
  obtain ⟨ms, m1, m2, m3, m4⟩ := insertModuleRow_appends failOps st cid m
  cases hrow : insertModuleRow failOps st cid m with
  | mk st1 r1 =>
    rw [hrow] at m1 m2 m3 m4
    dsimp only at m1 m2 m3 m4
    cases r1 with
    | error e => exact ⟨ms, [], [], by simp [m1, m2, m3, m4]⟩
    | ok moduleId =>
      cases hitems : m.items with
      | none => exact ⟨ms, [], [], by simp [m1, m2, m3, m4]⟩
      | some items =>
        by_cases hlen : items.length > 0
        · simp only [if_pos hlen]
          cases hbuild : buildItemsData moduleId 0 items with
          | error e => exact ⟨ms, [], [], by simp [m1, m2, m3, m4]⟩
          | ok itemsData =>
            obtain ⟨is, i1, i2, i3, i4⟩ := insertItemsBatch_appends failOps st1 itemsData
            cases hbatch : insertItemsBatch failOps st1 itemsData with
            | mk st2 r2 =>
              rw [hbatch] at i1 i2 i3 i4
              dsimp only at i1 i2 i3 i4
              cases r2 with
              | error e =>
                exact ⟨ms, is, [], by
                  simp [hbatch, m1, m2, m3, m4, i1, i2, i3, i4, List.append_assoc]⟩
              | ok savedItems =>
                by_cases hsaved : savedItems.length = 0
                · exact ⟨ms, is, [], by
                    simp [hbatch, List.length_eq_zero.mp hsaved, m1, m2, m3, m4,
                      i1, i2, i3, i4, List.append_assoc]⟩
                · obtain ⟨cs, c1, c2, c3, c4⟩ := insertChaptersForItems_appends failOps
                    (savedItems.zip items) st2
                  have hne : savedItems ≠ [] := fun hh => hsaved (by simp [hh])
                  exact ⟨ms, is, cs, by
                    simp [hbatch, hne, m1, m2, m3, m4, i1, i2, i3, i4, c1, c2, c3, c4,
                      List.append_assoc]⟩
        · exact ⟨ms, [], [], by simp [hlen, m1, m2, m3, m4]⟩

theorem importModules_appends (failOps : List Nat) (mods : List ModuleJson)
    (st : Store) (cid : Nat) :
    ∃ ms is cs, (importModules failOps st cid mods).1.courses = st.courses
      ∧ (importModules failOps st cid mods).1.modules = st.modules ++ ms
      ∧ (importModules failOps st cid mods).1.items = st.items ++ is
      ∧ (importModules failOps st cid mods).1.chapters = st.chapters ++ cs := by
  induction mods generalizing st with
  | nil =>
    refine ⟨[], [], [], ?_, ?_, ?_, ?_⟩ <;> simp [importModules]
  | cons m mods ih =>
    obtain ⟨ms, is, cs, h1, h2, h3, h4⟩ := importModule_appends failOps st cid m
    cases hrun : importModule failOps st cid m with
    | mk st1 r =>
      rw [hrun] at h1 h2 h3 h4
      dsimp only at h1 h2 h3 h4
      cases r with
      | error e =>
        exact ⟨ms, is, cs, by simp [importModules, hrun, h1, h2, h3, h4]⟩
      | ok u =>
        cases u
        obtain ⟨ms2, is2, cs2, g1, g2, g3, g4⟩ := ih st1
        exact ⟨ms ++ ms2, is ++ is2, cs ++ cs2, by
          simp [importModules, hrun, g1, g2, g3, g4, h1, h2, h3, h4,
            List.append_assoc]⟩

/-! ## Concrete import scenarios -/

def c1Course : CourseRow :=
  { id := 0, title := "T", description := some "d", status := "draft",
    access_type := "free", price_cents := none, currency := some "EUR",
    is_paid := false, created_by := "alice" }

def c1Store : Store :=
  { courses := [c1Course], modules := [], items := [], chapters := [],
    nextId := 1, opCount := 0 }

def c1Item (t : String) : ItemJson :=
  { type := some "resource", title := some t, position := some 0,
    published := some true, content := some (.obj []), asset_path := none,
    external_url := none, chapters := none }

def c1Module (t : String) (p : Int) (n : String) : ModuleJson :=
  { title := t, position := p, items := some [c1Item n] }

def c1Doc : CourseJson :=
  { title := "T", description := some "d", status := "draft",
    access_type := "free", price_cents := none, currency := some "EUR",
    theme := none,
    modules := [c1Module "M1" 0 "I1", c1Module "M2" 1 "I2", c1Module "M3" 2 "I3"] }

/-- C1 counterexample: importing `c1Doc` (3 modules of one item each) into
the existing empty course 0, with the 2nd of the 3 item inserts failing
(write #4: 0 = course update, 1 = module M1, 2 = items of M1, 3 = module
M2, 4 = items of M2), throws — but the resulting course subtree contains
exactly 1 item: neither zero nor all 3. -/
theorem import_failure_leaves_partial_tree :
    (handleSave c1Store [4] "alice" (some 0) c1Doc).2 = .error (.dbError 4)
    ∧ ¬ ((handleSave c1Store [4] "alice" (some 0) c1Doc).1.items.length = 0
         ∨ (handleSave c1Store [4] "alice" (some 0) c1Doc).1.items.length = 3) := by
  constructor
  · decide
  · decide

/-- C1 (amended): the import is not atomic and performs no rollback: the
module loop only ever appends rows, so an abort keeps everything the
earlier iterations wrote; concretely, when the 2nd of 3 item inserts fails
the subtree keeps exactly the 1 item (and 2 module rows) written before the
failure. -/
theorem import_not_atomic :
    (∀ (failOps : List Nat) (st : Store) (cid : Nat) (mods : List ModuleJson),
      ∃ ms is cs,
        (importModules failOps st cid mods).1.modules = st.modules ++ ms
        ∧ (importModules failOps st cid mods).1.items = st.items ++ is
        ∧ (importModules failOps st cid mods).1.chapters = st.chapters ++ cs)
    ∧ (handleSave c1Store [4] "alice" (some 0) c1Doc).1.items.length = 1
    ∧ (handleSave c1Store [4] "alice" (some 0) c1Doc).1.modules.length = 2 := by
  refine ⟨fun failOps st cid mods => ?_, by decide, by decide⟩
  obtain ⟨ms, is, cs, _, h2, h3, h4⟩ := importModules_appends failOps mods st cid
  exact ⟨ms, is, cs, h2, h3, h4⟩

/-- A mini-game payload with no `gameType` whose `matching` validation
fails (`pairs` is empty). -/
def badGamePayload : JsonVal := .obj [("pairs", .arr [])]

/-- A course document with one `game` item carrying `payload` as its
content and one `game` chapter carrying `payload` as its `game_content`. -/
def c4DocWith (payload : JsonVal) : CourseJson :=
  { title := "G", description := some "", status := "draft",
    access_type := "free", price_cents := none, currency := some "EUR",
    theme := none,
    modules := [
      { title := "M", position := 0,
        items := some [
          { type := some "game", title := some "I", position := some 0,
            published := some true, content := some payload,
            asset_path := none, external_url := none,
            chapters := some [
              { title := some "C", position := 0, content := none,
                type := some "game", game_content := some payload,
                published := none } ] } ] } ] }

/-- C4 counterexample: an import carrying a game payload with *no*
`gameType` — one the registry's `matching` validator also rejects —
succeeds, and the payload is persisted verbatim as the item content and the
game chapter's `game_content`; extraction of that payload at render time
yields `null`. -/
theorem invalid_game_payload_is_persisted :
    (handleSave emptyStore [] "u" none (c4DocWith badGamePayload)).2 = .ok 0
    ∧ (handleSave emptyStore [] "u" none (c4DocWith badGamePayload)).1.chapters.map
        (fun c => c.game_content) = [some badGamePayload]
    ∧ (handleSave emptyStore [] "u" none (c4DocWith badGamePayload)).1.items.map
        (fun i => i.content) = [badGamePayload]
    ∧ matchingValidateConfig badGamePayload = false
    ∧ extractGameContent (fun _ => none) (some badGamePayload) = none := by
  refine ⟨by decide, by decide, by decide, by decide, ?_⟩
  show extractGameContentRec badGamePayload = none
  rw [extractGameContentRec_eq]
  simp +decide [badGamePayload, JsonVal.getField, extractFinish]

/-- C4 (amended): the import path consults no game validator at all —
*every* (truthy) payload, with or without a `gameType`, valid or invalid
for its declared game type, imports successfully and is persisted verbatim
in the item `content` and the chapter `game_content`; registry validation
happens only at render time. -/
theorem game_payload_not_validated_on_import (payload : JsonVal)
    (hp : payload.truthy = true) :
    (handleSave emptyStore [] "u" none (c4DocWith payload)).2 = .ok 0
    ∧ (handleSave emptyStore [] "u" none (c4DocWith payload)).1.items.map
        (fun i => i.content) = [payload]
    ∧ (handleSave emptyStore [] "u" none (c4DocWith payload)).1.chapters.map
        (fun c => c.game_content) = [some payload] := by
  refine ⟨?_, ?_, ?_⟩ <;>
    simp +decide [handleSave, createCourseRow, courseDataOf, c4DocWith,
      importModules, importModule, insertModuleRow, insertItemsBatch,
      buildItemsData, itemDataOf, validateItemType, typeMapLookup, typeMap,
      jsToLower, jsToLowerChar, jsTrim, isJsWhitespace, jsStrOr, jsOr,
      jsOrNull, strOrNone, intOrNone, insertChaptersForItems, assignItemIds,
      assignChapterIds, chapterRowOf, validChapterType, emptyStore, hp]

/-- Witness for C4: the amended theorem applied to the concrete truthy
payload `{"w": null}`. -/
theorem game_payload_not_validated_on_import_witness :
    (handleSave emptyStore [] "u" none (c4DocWith (.obj [("w", .null)]))).2 = .ok 0
    ∧ (handleSave emptyStore [] "u" none
        (c4DocWith (.obj [("w", .null)]))).1.items.map
        (fun i => i.content) = [.obj [("w", .null)]]
    ∧ (handleSave emptyStore [] "u" none
        (c4DocWith (.obj [("w", .null)]))).1.chapters.map
        (fun c => c.game_content) = [some (.obj [("w", .null)])] :=
  game_payload_not_validated_on_import (.obj [("w", .null)]) rfl

/-- A course document whose single item has no title and one chapter. -/
def c6Doc : CourseJson :=
  { title := "C6", description := some "", status := "draft",
    access_type := "free", price_cents := none, currency := some "EUR",
    theme := none,
    modules := [
      { title := "M", position := 0,
        items := some [
          { type := some "resource", title := none, position := some 0,
            published := none, content := none, asset_path := none,
            external_url := none,
            chapters := some [
              { title := some "ch", position := 0,
                content := some (.obj [("a", .num 1)]), type := none,
                game_content := none, published := none } ] } ] } ] }

/-- C6 counterexample: with the chapter insert failing (write #3: 0 =
course insert, 1 = module insert, 2 = items insert, 3 = chapters insert),
the import *succeeds* with the chapter silently missing, and the untitled
item is given the substitute title `Item 1` instead of being reported. -/
theorem import_silently_defaults_counterexample :
    (handleSave emptyStore [3] "u" none c6Doc).2 = .ok 0
    ∧ (handleSave emptyStore [3] "u" none c6Doc).1.items.map
        (fun i => i.title) = ["Item 1"]
    ∧ (handleSave emptyStore [3] "u" none c6Doc).1.chapters = [] := by
  refine ⟨by decide, by decide, by decide⟩

/-- An untitled item whose type is valid. -/
def c6WitnessItem : ItemJson :=
  { type := some "tp", title := none, position := none, published := none,
    content := none, asset_path := none, external_url := none,
    chapters := none }

/-- The row data the import builds for `c6WitnessItem` in module 5 at
index 0. -/
def c6WitnessData : ItemData :=
  { module_id := 5, type := .tp, title := "Item 1", position := 0,
    published := true, content := .obj [], asset_path := none,
    external_url := none }

/-- C6 (amended): the import does silently default: a missing item title
becomes `Item N`, an unrecognized chapter kind becomes `content`, and a
failed chapter insert is swallowed — the import completes successfully with
those chapters missing.  (Item *type* failures, by contrast, do abort the
import.) -/
theorem import_silent_defaults :
    (∀ (mid idx : Nat) (item : ItemJson) (d : ItemData),
       item.title = none → itemDataOf mid idx item = .ok d →
       d.title = s!"Item {idx + 1}")
    ∧ (∀ t : Option String, t ≠ some "content" → t ≠ some "game" →
        validChapterType t = .content)
    ∧ ((handleSave emptyStore [3] "u" none c6Doc).2 = .ok 0
       ∧ (handleSave emptyStore [3] "u" none c6Doc).1.chapters = []) := by
  refine ⟨?_, ?_, by decide, by decide⟩
  · intro mid idx item d htitle hok
    unfold itemDataOf at hok
    cases hvt : validateItemType item.type with
    | error e => rw [hvt] at hok; exact absurd hok (by simp)
    | ok t =>
      rw [hvt] at hok
      simp only [Except.ok.injEq] at hok
      rw [← hok]
      simp [jsStrOr, htitle]
  · intro t h1 h2
    unfold validChapterType
    split <;> simp_all

/-- Witness for C6: the amended defaulting clauses applied at
`c6WitnessItem` (untitled, type `tp`) and at the unrecognized chapter kind
`"bogus"`. -/
theorem import_silent_defaults_witness :
    c6WitnessData.title = s!"Item {0 + 1}"
    ∧ validChapterType (some "bogus") = ChapterType.content :=
  ⟨import_silent_defaults.1 5 0 c6WitnessItem c6WitnessData rfl (by decide),
   import_silent_defaults.2.1 (some "bogus") (by decide) (by decide)⟩

/-! ## C8: the course row on the update path -/

theorem deleteOldSubtree_courses (failOps : List Nat) (st : Store) (cid : Nat) :
    (deleteOldSubtree failOps st cid).courses = st.courses := by
  unfold deleteOldSubtree deleteModulesCascade
  dsimp only
  split
  · split <;> rfl
  · rfl

theorem updateCourseRow_eq (failOps : List Nat) (st : Store) (cid : Nat)
    (d : CourseData) (row : CourseRow)
    (hfind : st.courses.find? (fun c => c.id = cid) = some row)
    (hop : st.opCount ∉ failOps) :
    updateCourseRow failOps st cid d =
      ({ st with
         opCount := st.opCount + 1,
         courses := st.courses.map (fun c =>
           if c.id = cid then applyCourseData c d else c) }, .ok cid) := by
  unfold updateCourseRow
  rw [hfind]
  simp [hop]

theorem find?_map_update (cs : List CourseRow) (cid : Nat) (d : CourseData)
    (row : CourseRow) (hfind : cs.find? (fun c => c.id = cid) = some row) :
    (cs.map (fun c => if c.id = cid then applyCourseData c d else c)).find?
      (fun c => c.id = cid) = some (applyCourseData row d) := by
  induction cs with
  | nil => simp at hfind
  | cons c cs ih =>
    by_cases hc : c.id = cid
    · rw [List.find?_cons_of_pos _ (by simpa using hc)] at hfind
      injection hfind with hrow
      simp only [List.map_cons, if_pos hc]
      rw [List.find?_cons_of_pos _ (by simp [applyCourseData, hc])]
      rw [hrow]
    · rw [List.find?_cons_of_neg _ (by simpa using hc)] at hfind
      simp only [List.map_cons, if_neg hc]
      rw [List.find?_cons_of_neg _ (by simpa using hc)]
      exact ih hfind

/-- C8 counterexample: updating the existing course 0 (created by "alice")
as principal "bob" rewrites `created_by` to "bob": the acting principal's
ID is written on update, not only on creation. -/
theorem created_by_overwritten_on_update_counterexample :
    c1Store.courses.map (fun c => c.created_by) = ["alice"]
    ∧ (handleSave c1Store [] "bob" (some 0)
        { c1Doc with modules := [] }).1.courses.map
        (fun c => c.created_by) = ["bob"] := by
  exact ⟨by decide, by decide⟩

/-- C8 (amended): on the update path the Course row is updated in place,
but the update payload includes `created_by: user.id`, so the acting
principal's ID overwrites `created_by` on *every* save — update as well as
creation; only the row id survives the update. -/
theorem update_overwrites_created_by (st : Store) (failOps : List Nat)
    (uid : String) (cid : Nat) (doc : CourseJson) (row : CourseRow)
    (hfind : st.courses.find? (fun c => c.id = cid) = some row)
    (hop : st.opCount ∉ failOps) :
    (handleSave st failOps uid (some cid) doc).1.courses.find?
      (fun c => c.id = cid) = some (applyCourseData row (courseDataOf doc uid))
    ∧ (applyCourseData row (courseDataOf doc uid)).created_by = uid := by
  refine ⟨?_, rfl⟩
  unfold handleSave
  dsimp only
  rw [updateCourseRow_eq failOps st cid (courseDataOf doc uid) row hfind hop]
  dsimp only
  set st1 : Store :=
    { st with
      opCount := st.opCount + 1,
      courses := st.courses.map (fun c =>
        if c.id = cid then applyCourseData c (courseDataOf doc uid) else c) }
    with hst1
  set st2 := deleteOldSubtree failOps st1 cid with hst2
  obtain ⟨ms, is, cs, h1, _, _, _⟩ :=
    importModules_appends failOps doc.modules st2 cid
  cases hrun : importModules failOps st2 cid doc.modules with
  | mk st3 r =>
    rw [hrun] at h1
    dsimp only at h1
    have hcourses : st3.courses = st1.courses := by
      rw [h1, hst2, deleteOldSubtree_courses]
    rw [show (if (some cid).isSome = true then st2 else st1) = st2 from by simp,
      hrun]
    cases r with
    | error e =>
      dsimp only
      rw [hcourses, hst1]
      exact find?_map_update st.courses cid (courseDataOf doc uid) row hfind
    | ok u =>
      cases u
      dsimp only
      rw [hcourses, hst1]
      exact find?_map_update st.courses cid (courseDataOf doc uid) row hfind

/-- Witness for C8: the amended theorem applied to the concrete store
`c1Store` (course 0 created by "alice") updated by principal "bob". -/
theorem update_overwrites_created_by_witness :
    (handleSave c1Store [] "bob" (some 0)
      { c1Doc with modules := [] }).1.courses.find? (fun c => c.id = 0)
      = some (applyCourseData c1Course
          (courseDataOf { c1Doc with modules := [] } "bob"))
    ∧ (applyCourseData c1Course
        (courseDataOf { c1Doc with modules := [] } "bob")).created_by = "bob" :=
  update_overwrites_created_by c1Store [] "bob" 0
    { c1Doc with modules := [] } c1Course (by decide) (by decide)

/-! ## Deterministic characterization of a failure-free import

With an empty failure schedule the import is deterministic; the following
pure builders compute exactly the rows it writes (`none` = a validation
error aborted it).  They are proof-side companions of the import
functions, used to state and prove the round-trip and position claims. -/

def buildChaptersRows : Nat → List (ItemRow × ItemJson) → List ChapterRow × Nat
  | base, [] => ([], base)
  | base, (savedItem, originalItem) :: rest =>
    match originalItem.chapters with
    | some chs =>
      if chs.length > 0 then
        let rows := assignChapterIds savedItem.id base chs
        let (restRows, fin) := buildChaptersRows (base + chs.length) rest
        (rows ++ restRows, fin)
      else buildChaptersRows base rest
    | none => buildChaptersRows base rest

def buildModuleResult (cid base : Nat) (m : ModuleJson) :
    Option (ModuleRow × List ItemRow × List ChapterRow × Nat) :=
  let mrow : ModuleRow :=
    { id := base, course_id := cid, title := m.title, position := m.position }
  match m.items with
  | some items =>
    if items.length > 0 then
      match buildItemsData base 0 items with
      | .error _ => none
      | .ok ds =>
        let irows := assignItemIds (base + 1) ds
        let (crows, fin) := buildChaptersRows (base + 1 + ds.length) (irows.zip items)
        some (mrow, irows, crows, fin)
    else some (mrow, [], [], base + 1)
  | none => some (mrow, [], [], base + 1)

def buildModulesResult (cid base : Nat) :
    List ModuleJson → Option (List ModuleRow × List ItemRow × List ChapterRow × Nat)
  | [] => some ([], [], [], base)
  | m :: rest =>
    match buildModuleResult cid base m with
    | none => none
    | some (mrow, irows, crows, fin) =>
      match buildModulesResult cid fin rest with
      | none => none
      | some (mrows, irows2, crows2, fin2) =>
        some (mrow :: mrows, irows ++ irows2, crows ++ crows2, fin2)

theorem buildItemsData_length (mid idx : Nat) (items : List ItemJson)
    (ds : List ItemData) (h : buildItemsData mid idx items = .ok ds) :
    ds.length = items.length := by
  induction items generalizing idx ds with
  | nil => simp [buildItemsData] at h; simp [← h]
  | cons item rest ih =>
    unfold buildItemsData at h
    cases hd : itemDataOf mid idx item with
    | error e => rw [hd] at h; exact absurd h (by simp)
    | ok d =>
      rw [hd] at h
      cases hr : buildItemsData mid (idx + 1) rest with
      | error e => rw [hr] at h; exact absurd h (by simp)
      | ok ds2 =>
        rw [hr] at h
        simp only [Except.ok.injEq] at h
        rw [← h]
        simp [ih (idx + 1) ds2 hr]

theorem assignItemIds_length (base : Nat) (ds : List ItemData) :
    (assignItemIds base ds).length = ds.length := by
  induction ds generalizing base with
  | nil => rfl
  | cons d rest ih => simp [assignItemIds, ih]

theorem insertChaptersForItems_run (ps : List (ItemRow × ItemJson)) (st : Store) :
    (insertChaptersForItems [] st ps).courses = st.courses
    ∧ (insertChaptersForItems [] st ps).modules = st.modules
    ∧ (insertChaptersForItems [] st ps).items = st.items
    ∧ (insertChaptersForItems [] st ps).chapters
        = st.chapters ++ (buildChaptersRows st.nextId ps).1
    ∧ (insertChaptersForItems [] st ps).nextId = (buildChaptersRows st.nextId ps).2 := by
  induction ps generalizing st with
  | nil => simp [insertChaptersForItems, buildChaptersRows]
  | cons p ps ih =>
    obtain ⟨savedItem, originalItem⟩ := p
    cases horig : originalItem.chapters with
    | none =>
      obtain ⟨h1, h2, h3, h4, h5⟩ := ih st
      refine ⟨?_, ?_, ?_, ?_, ?_⟩ <;>
        simp [insertChaptersForItems, buildChaptersRows, horig, h1, h2, h3, h4, h5]
    | some chs =>
      by_cases hlen : chs.length > 0
      · obtain ⟨h1, h2, h3, h4, h5⟩ := ih
          { st with
            opCount := st.opCount + 1,
            chapters := st.chapters ++ assignChapterIds savedItem.id st.nextId chs,
            nextId := st.nextId + chs.length }
        refine ⟨?_, ?_, ?_, ?_, ?_⟩ <;>
          simp [insertChaptersForItems, buildChaptersRows, horig, hlen,
            h1, h2, h3, h4, h5, List.append_assoc]
      · obtain ⟨h1, h2, h3, h4, h5⟩ := ih st
        refine ⟨?_, ?_, ?_, ?_, ?_⟩ <;>
          simp [insertChaptersForItems, buildChaptersRows, horig, hlen,
            h1, h2, h3, h4, h5]

theorem importModule_run (st : Store) (cid : Nat) (m : ModuleJson) :
    match buildModuleResult cid st.nextId m with
    | some (mrow, irows, crows, fin) =>
      (importModule [] st cid m).2 = .ok ()
      ∧ (importModule [] st cid m).1.courses = st.courses
      ∧ (importModule [] st cid m).1.modules = st.modules ++ [mrow]
      ∧ (importModule [] st cid m).1.items = st.items ++ irows
      ∧ (importModule [] st cid m).1.chapters = st.chapters ++ crows
      ∧ (importModule [] st cid m).1.nextId = fin
    | none => ∃ e, (importModule [] st cid m).2 = .error e := by
  have hrow : insertModuleRow [] st cid m =
      ({ st with
         opCount := st.opCount + 1,
         modules := st.modules ++
           [{ id := st.nextId, course_id := cid,
              title := m.title, position := m.position }],
         nextId := st.nextId + 1 }, .ok st.nextId) := by
    simp [insertModuleRow]
  unfold importModule buildModuleResult
  rw [hrow]
  dsimp only
  cases hitems : m.items with
  | none => refine ⟨?_, ?_, ?_, ?_, ?_, ?_⟩ <;> simp
  | some items =>
    by_cases hlen : items.length > 0
    · simp only [if_pos hlen]
      cases hbuild : buildItemsData st.nextId 0 items with
      | error e => exact ⟨e, rfl⟩
      | ok ds =>
        have hbatch : insertItemsBatch [] { st with
            opCount := st.opCount + 1,
            modules := st.modules ++
              [{ id := st.nextId, course_id := cid,
                 title := m.title, position := m.position }],
            nextId := st.nextId + 1 } ds =
          ({ st with
             opCount := st.opCount + 2,
             modules := st.modules ++
               [{ id := st.nextId, course_id := cid,
                  title := m.title, position := m.position }],
             items := st.items ++ assignItemIds (st.nextId + 1) ds,
             nextId := st.nextId + 1 + ds.length }, .ok (assignItemIds (st.nextId + 1) ds)) := by
          simp [insertItemsBatch]
        dsimp only
        rw [hbatch]
        dsimp only
        have hdslen : ds.length = items.length := buildItemsData_length _ _ _ _ hbuild
        have hsaved : (assignItemIds (st.nextId + 1) ds).length ≠ 0 := by
          rw [assignItemIds_length, hdslen]
          omega
        rw [if_neg (by simpa using hsaved)]
        obtain ⟨c1, c2, c3, c4, c5⟩ := insertChaptersForItems_run
          ((assignItemIds (st.nextId + 1) ds).zip items)
          { st with
            opCount := st.opCount + 2,
            modules := st.modules ++
              [{ id := st.nextId, course_id := cid,
                 title := m.title, position := m.position }],
            items := st.items ++ assignItemIds (st.nextId + 1) ds,
            nextId := st.nextId + 1 + ds.length }
        dsimp only at c1 c2 c3 c4 c5
        exact ⟨rfl, c1, c2, c3, by rw [c4], by rw [c5]⟩
    · simp only [if_neg hlen]
      refine ⟨?_, ?_, ?_, ?_, ?_, ?_⟩ <;> simp

theorem importModules_run (mods : List ModuleJson) (st : Store) (cid : Nat) :
    match buildModulesResult cid st.nextId mods with
    | some (mrows, irows, crows, fin) =>
      (importModules [] st cid mods).2 = .ok ()
      ∧ (importModules [] st cid mods).1.courses = st.courses
      ∧ (importModules [] st cid mods).1.modules = st.modules ++ mrows
      ∧ (importModules [] st cid mods).1.items = st.items ++ irows
      ∧ (importModules [] st cid mods).1.chapters = st.chapters ++ crows
      ∧ (importModules [] st cid mods).1.nextId = fin
    | none => ∃ e, (importModules [] st cid mods).2 = .error e := by
  induction mods generalizing st with
  | nil => simp [importModules, buildModulesResult]
  | cons m rest ih =>
    have hm := importModule_run st cid m
    unfold buildModulesResult
    cases hbm : buildModuleResult cid st.nextId m with
    | none =>
      rw [hbm] at hm
      obtain ⟨e, he⟩ := hm
      dsimp only
      refine ⟨e, ?_⟩
      cases hrun : importModule [] st cid m with
      | mk st1 r =>
        rw [hrun] at he
        dsimp only at he
        subst he
        simp [importModules, hrun]
    | some res =>
      obtain ⟨mrow, irows, crows, fin⟩ := res
      rw [hbm] at hm
      dsimp only at hm ⊢
      obtain ⟨hok, h1, h2, h3, h4, h5⟩ := hm
      cases hrun : importModule [] st cid m with
      | mk st1 r =>
        rw [hrun] at hok h1 h2 h3 h4 h5
        dsimp only at hok h1 h2 h3 h4 h5
        subst hok
        have hih := ih st1
        rw [h5] at hih
        cases hbr : buildModulesResult cid fin rest with
        | none =>
          rw [hbr] at hih
          obtain ⟨e, he⟩ := hih
          exact ⟨e, by simp [importModules, hrun, he]⟩
        | some res2 =>
          obtain ⟨mrows2, irows2, crows2, fin2⟩ := res2
          rw [hbr] at hih
          dsimp only at hih ⊢
          obtain ⟨g0, g1, g2, g3, g4, g5⟩ := hih
          refine ⟨?_, ?_, ?_, ?_, ?_, ?_⟩ <;>
            simp [importModules, hrun, g0, g1, g2, g3, g4, g5,
              h1, h2, h3, h4, List.append_assoc]

/-! ## Position projections of the built rows (C3) -/

theorem assignChapterIds_positions (itemId base : Nat) (chs : List ChapterJson) :
    (assignChapterIds itemId base chs).map (fun c => c.position)
      = chs.map (fun ch => ch.position) := by
  induction chs generalizing base with
  | nil => rfl
  | cons ch rest ih => simp [assignChapterIds, chapterRowOf, ih]

theorem assignItemIds_positions (base : Nat) (ds : List ItemData) :
    (assignItemIds base ds).map (fun i => i.position)
      = ds.map (fun d => d.position) := by
  induction ds generalizing base with
  | nil => rfl
  | cons d rest ih => simp [assignItemIds, ih]

theorem buildItemsData_positions (mid idx : Nat) (items : List ItemJson)
    (ds : List ItemData) (h : buildItemsData mid idx items = .ok ds) :
    ds.map (fun d => d.position)
      = (List.enumFrom idx items).map (fun p => p.2.position.getD p.1) := by
  induction items generalizing idx ds with
  | nil => simp [buildItemsData] at h; simp [← h, List.enumFrom]
  | cons item rest ih =>
    unfold buildItemsData at h
    cases hd : itemDataOf mid idx item with
    | error e => rw [hd] at h; exact absurd h (by simp)
    | ok d =>
      rw [hd] at h
      cases hr : buildItemsData mid (idx + 1) rest with
      | error e => rw [hr] at h; exact absurd h (by simp)
      | ok ds2 =>
        rw [hr] at h
        simp only [Except.ok.injEq] at h
        subst h
        have hdpos : d.position = item.position.getD idx := by
          unfold itemDataOf at hd
          cases hvt : validateItemType item.type with
          | error e => rw [hvt] at hd; exact absurd hd (by simp)
          | ok t =>
            rw [hvt] at hd
            simp only [Except.ok.injEq] at hd
            rw [← hd]
        simp [List.enumFrom, hdpos, ih (idx + 1) ds2 hr]

theorem zip_map_snd {α β : Type} (l1 : List α) (l2 : List β)
    (h : l1.length = l2.length) : (l1.zip l2).map (fun p => p.2) = l2 := by
  induction l1 generalizing l2 with
  | nil => cases l2 with
    | nil => rfl
    | cons b bs => simp at h
  | cons a as ih =>
    cases l2 with
    | nil => simp at h
    | cons b bs =>
      simp only [List.length_cons, Nat.add_right_cancel_iff] at h
      simp [List.zip_cons_cons, ih bs h]

theorem buildChaptersRows_positions (base : Nat) (ps : List (ItemRow × ItemJson)) :
    ((buildChaptersRows base ps).1).map (fun c => c.position)
      = (ps.map (fun p => (p.2.chapters.getD []).map (fun ch => ch.position))).flatten := by
  induction ps generalizing base with
  | nil => rfl
  | cons p ps ih =>
    obtain ⟨savedItem, originalItem⟩ := p
    cases horig : originalItem.chapters with
    | none => simp [buildChaptersRows, horig, ih]
    | some chs =>
      by_cases hlen : chs.length > 0
      · simp [buildChaptersRows, horig, hlen, assignChapterIds_positions, ih]
      · have : chs = [] := List.length_eq_zero.mp (by omega)
        subst this
        simp [buildChaptersRows, horig, ih]

theorem buildModuleResult_positions (cid base : Nat) (m : ModuleJson)
    (mrow : ModuleRow) (irows : List ItemRow) (crows : List ChapterRow)
    (fin : Nat) (h : buildModuleResult cid base m = some (mrow, irows, crows, fin)) :
    mrow.position = m.position
    ∧ irows.map (fun i => i.position)
        = (List.enum (m.items.getD [])).map (fun p => p.2.position.getD p.1)
    ∧ crows.map (fun c => c.position)
        = ((m.items.getD []).map
            (fun it => (it.chapters.getD []).map (fun ch => ch.position))).flatten := by
  unfold buildModuleResult at h
  cases hitems : m.items with
  | none =>
    rw [hitems] at h
    dsimp only at h
    simp only [Option.some.injEq, Prod.mk.injEq] at h
    obtain ⟨h1, h2, h3, h4⟩ := h
    subst h1
    subst h2
    subst h3
    exact ⟨rfl, by simp [hitems], by simp [hitems]⟩
  | some items =>
    rw [hitems] at h
    dsimp only at h
    by_cases hlen : items.length > 0
    · rw [if_pos hlen] at h
      cases hbuild : buildItemsData base 0 items with
      | error e => rw [hbuild] at h; exact absurd h (by simp)
      | ok ds =>
        rw [hbuild] at h
        dsimp only at h
        simp only [Option.some.injEq, Prod.mk.injEq] at h
        obtain ⟨h1, h2, h3, h4⟩ := h
        subst h1
        subst h2
        subst h3
        have hlens : (assignItemIds (base + 1) ds).length = items.length := by
          rw [assignItemIds_length, buildItemsData_length base 0 items ds hbuild]
        refine ⟨rfl, ?_, ?_⟩
        · rw [assignItemIds_positions,
            buildItemsData_positions base 0 items ds hbuild]
          simp [hitems, List.enum]
        · rw [buildChaptersRows_positions]
          rw [show (((assignItemIds (base + 1) ds).zip items).map
              (fun p => (p.2.chapters.getD []).map (fun ch => ch.position)))
            = ((((assignItemIds (base + 1) ds).zip items).map (fun p => p.2)).map
              (fun it => (it.chapters.getD []).map (fun ch => ch.position))) from
            (List.map_map
              (fun it : ItemJson => (it.chapters.getD []).map (fun ch => ch.position))
              (fun p : ItemRow × ItemJson => p.2)
              ((assignItemIds (base + 1) ds).zip items)).symm]
          rw [zip_map_snd _ items hlens]
          simp [hitems]
    · rw [if_neg hlen] at h
      have hnil : items = [] := List.length_eq_zero.mp (by omega)
      subst hnil
      simp only [Option.some.injEq, Prod.mk.injEq] at h
      obtain ⟨h1, h2, h3, h4⟩ := h
      subst h1
      subst h2
      subst h3
      exact ⟨rfl, by simp [hitems], by simp [hitems]⟩

theorem buildModulesResult_positions (cid base : Nat) (mods : List ModuleJson)
    (mrows : List ModuleRow) (irows : List ItemRow) (crows : List ChapterRow)
    (fin : Nat)
    (h : buildModulesResult cid base mods = some (mrows, irows, crows, fin)) :
    mrows.map (fun m => m.position) = mods.map (fun m => m.position)
    ∧ irows.map (fun i => i.position)
        = (mods.map (fun m => (List.enum (m.items.getD [])).map
            (fun p => p.2.position.getD p.1))).flatten
    ∧ crows.map (fun c => c.position)
        = (mods.map (fun m => ((m.items.getD []).map
            (fun it => (it.chapters.getD []).map (fun ch => ch.position))).flatten)).flatten := by
  induction mods generalizing base mrows irows crows fin with
  | nil =>
    simp only [buildModulesResult, Option.some.injEq, Prod.mk.injEq] at h
    refine ⟨?_, ?_, ?_⟩ <;> simp_all
  | cons m rest ih =>
    unfold buildModulesResult at h
    cases hbm : buildModuleResult cid base m with
    | none => rw [hbm] at h; exact absurd h (by simp)
    | some res =>
      obtain ⟨mrow, irows1, crows1, fin1⟩ := res
      rw [hbm] at h
      dsimp only at h
      cases hbr : buildModulesResult cid fin1 rest with
      | none => rw [hbr] at h; exact absurd h (by simp)
      | some res2 =>
        obtain ⟨mrows2, irows2, crows2, fin2⟩ := res2
        rw [hbr] at h
        simp only [Option.some.injEq, Prod.mk.injEq] at h
        obtain ⟨hA, hB, hC, hD⟩ := h
        obtain ⟨p1, p2, p3⟩ := buildModuleResult_positions cid base m mrow irows1
          crows1 fin1 hbm
        obtain ⟨q1, q2, q3⟩ := ih fin1 mrows2 irows2 crows2 fin2 hbr
        exact ⟨by simp [← hA, p1, q1], by simp [← hB, p2, q2],
          by simp [← hC, p3, q3]⟩

/-! ## Claim theorems: positions (C3) -/

/-- A document whose module sits at position 5, its item at position 7 and
its chapter at position 9 — all at array index 0. -/
def c3Doc : CourseJson :=
  { title := "P", description := some "", status := "draft",
    access_type := "free", price_cents := none, currency := some "EUR",
    theme := none,
    modules := [
      { title := "M", position := 5,
        items := some [
          { type := some "resource", title := some "I", position := some 7,
            published := some true, content := some (.obj []),
            asset_path := none, external_url := none,
            chapters := some [
              { title := some "ch", position := 9,
                content := some (.obj [("a", .num 1)]), type := none,
                game_content := none, published := none } ] } ] } ] }

/-- C3 counterexample: importing `c3Doc` stores the document's own
`position` values 5/7/9 — not the zero-based array indices. -/
theorem import_positions_not_reindexed :
    (handleSave emptyStore [] "u" none c3Doc).2 = .ok 0
    ∧ (handleSave emptyStore [] "u" none c3Doc).1.modules.map
        (fun m => m.position) = [5]
    ∧ (handleSave emptyStore [] "u" none c3Doc).1.items.map
        (fun i => i.position) = [7]
    ∧ (handleSave emptyStore [] "u" none c3Doc).1.chapters.map
        (fun c => c.position) = [9]
    ∧ ([5] : List Int) ≠ [0] := by
  refine ⟨by decide, by decide, by decide, by decide, by decide⟩

/-- C3 (amended): a failure-free import stores, for every Module and
Chapter, the `position` value carried by the Document verbatim, and for
every Item the Document's `position` when present, falling back to the
zero-based array index only when it is absent.  Array order is *not*
authoritative: any `position` values present in the input win. -/
theorem import_positions_follow_document (st : Store) (cid : Nat)
    (mods : List ModuleJson) (st2 : Store)
    (h : importModules [] st cid mods = (st2, .ok ())) :
    (st2.modules.drop st.modules.length).map (fun m => m.position)
      = mods.map (fun m => m.position)
    ∧ (st2.items.drop st.items.length).map (fun i => i.position)
      = (mods.map (fun m => (List.enum (m.items.getD [])).map
          (fun p => p.2.position.getD p.1))).flatten
    ∧ (st2.chapters.drop st.chapters.length).map (fun c => c.position)
      = (mods.map (fun m => ((m.items.getD []).map
          (fun it => (it.chapters.getD []).map (fun ch => ch.position))).flatten)).flatten := by
  have hrun := importModules_run mods st cid
  cases hbm : buildModulesResult cid st.nextId mods with
  | none =>
    rw [hbm] at hrun
    obtain ⟨e, he⟩ := hrun
    rw [h] at he
    exact absurd he (by simp)
  | some res =>
    obtain ⟨mrows, irows, crows, fin⟩ := res
    rw [hbm] at hrun
    dsimp only at hrun
    obtain ⟨_, _, h2, h3, h4, _⟩ := hrun
    rw [h] at h2 h3 h4
    dsimp only at h2 h3 h4
    obtain ⟨p1, p2, p3⟩ := buildModulesResult_positions cid st.nextId mods
      mrows irows crows fin hbm
    refine ⟨?_, ?_, ?_⟩
    · rw [h2, List.drop_left, p1]
    · rw [h3, List.drop_left, p2]
    · rw [h4, List.drop_left, p3]

/-- Witness for C3: the amended theorem applied to the import of
`c3Doc.modules` into the fresh course 0 of the empty store. -/
theorem import_positions_follow_document_witness :
    ((importModules [] emptyStore 0 c3Doc.modules).1.modules.drop
        emptyStore.modules.length).map (fun m => m.position) = [5]
    ∧ ((importModules [] emptyStore 0 c3Doc.modules).1.items.drop
        emptyStore.items.length).map (fun i => i.position) = [7]
    ∧ ((importModules [] emptyStore 0 c3Doc.modules).1.chapters.drop
        emptyStore.chapters.length).map (fun c => c.position) = [9] :=
  import_positions_follow_document emptyStore 0 c3Doc.modules
    (importModules [] emptyStore 0 c3Doc.modules).1 (by decide)

/-! ## Export normal form (C2)

`wfCourseJson` characterizes the documents the exporter can reproduce: all
optional fields that export always materializes are present, strings that
`||`-default are non-empty, numbers that `||`-default are non-zero, item
types use the canonical enumeration spelling, content values are truthy,
positions are present and sorted the way the store queries order them, and
chapters carry none of the fields (`type`, `game_content`, `published`)
that export drops. -/

def wfStrOpt : Option String → Bool
  | none => true
  | some s => s != ""

def wfIntOpt : Option Int → Bool
  | none => true
  | some n => n != 0

def canonicalTypes : List String :=
  ["resource", "slide", "exercise", "tp", "game"]

def wfChapterJson (ch : ChapterJson) : Bool :=
  ch.title.isSome
  && (match ch.content with
      | none => true
      | some c => c.truthy)
  && ch.type == none
  && ch.game_content == none
  && ch.published == none

def wfItemJson (item : ItemJson) : Bool :=
  (match item.type with
   | some s => canonicalTypes.contains s
   | none => false)
  && (match item.title with
      | some t => t != ""
      | none => false)
  && item.position.isSome
  && item.published.isSome
  && (match item.content with
      | some c => c.truthy
      | none => false)
  && wfStrOpt item.asset_path
  && wfStrOpt item.external_url
  && (match item.chapters with
      | none => true
      | some chs =>
        decide (0 < chs.length)
        && chs.all wfChapterJson
        && decide (chs.Pairwise (fun a b => a.position ≤ b.position)))

def wfModuleJson (m : ModuleJson) : Bool :=
  match m.items with
  | some items =>
    items.all wfItemJson
    && decide (items.Pairwise (fun a b => a.position.getD 0 ≤ b.position.getD 0))
  | none => false

def wfCourseJson (doc : CourseJson) : Bool :=
  doc.description.isSome
  && wfIntOpt doc.price_cents
  && (match doc.currency with
      | some c => c != ""
      | none => false)
  && doc.theme == none
  && doc.modules.all wfModuleJson
  && decide (doc.modules.Pairwise (fun a b => a.position ≤ b.position))

theorem canonical_validate (s : String) (hs : canonicalTypes.contains s = true) :
    ∃ t : ItemType, validateItemType (some s) = .ok t ∧ t.toDbString = s := by
  simp [canonicalTypes] at hs
  rcases hs with rfl | rfl | rfl | rfl | rfl
  · exact ⟨.resource, by decide, rfl⟩
  · exact ⟨.slide, by decide, rfl⟩
  · exact ⟨.exercise, by decide, rfl⟩
  · exact ⟨.tp, by decide, rfl⟩
  · exact ⟨.game, by decide, rfl⟩

theorem strOrNone_wf (x : Option String) (h : wfStrOpt x = true) :
    strOrNone x = x := by
  cases x with
  | none => rfl
  | some s =>
    simp [wfStrOpt] at h
    simp [strOrNone, h]

theorem intOrNone_wf (x : Option Int) (h : wfIntOpt x = true) :
    intOrNone x = x := by
  cases x with
  | none => rfl
  | some n =>
    simp [wfIntOpt] at h
    simp [intOrNone, h]

/-! ## Chapter-level export lemmas -/

theorem assignChapterIds_item_id (itemId base : Nat) (chs : List ChapterJson) :
    ∀ c ∈ assignChapterIds itemId base chs, c.item_id = itemId := by
  induction chs generalizing base with
  | nil => intro c hc; simp [assignChapterIds] at hc
  | cons ch rest ih =>
    intro c hc
    simp only [assignChapterIds, List.mem_cons] at hc
    rcases hc with rfl | hc
    · rfl
    · exact ih (base + 1) c hc

theorem assignChapterIds_length (itemId base : Nat) (chs : List ChapterJson) :
    (assignChapterIds itemId base chs).length = chs.length := by
  induction chs generalizing base with
  | nil => rfl
  | cons ch rest ih => simp [assignChapterIds, ih]

theorem exportChapter_roundtrip (itemId id : Nat) (ch : ChapterJson)
    (hwf : wfChapterJson ch = true) :
    exportChapter (chapterRowOf itemId id ch) = ch := by
  obtain ⟨ctitle, cposition, ccontent, ctype, cgame, cpub⟩ := ch
  simp only [wfChapterJson, Bool.and_eq_true, beq_iff_eq] at hwf
  obtain ⟨⟨⟨⟨_, hcontent⟩, htype⟩, hgc⟩, hpub⟩ := hwf
  subst htype
  subst hgc
  subst hpub
  cases ccontent with
  | none => simp [exportChapter, chapterRowOf, jsOrNull]
  | some c =>
    simp only at hcontent
    simp [exportChapter, chapterRowOf, jsOrNull, hcontent]

theorem map_exportChapter_assign (itemId base : Nat) (chs : List ChapterJson)
    (hwf : chs.all wfChapterJson = true) :
    (assignChapterIds itemId base chs).map exportChapter = chs := by
  induction chs generalizing base with
  | nil => rfl
  | cons ch rest ih =>
    simp only [List.all_cons, Bool.and_eq_true] at hwf
    simp [assignChapterIds, exportChapter_roundtrip itemId base ch hwf.1,
      ih (base + 1) hwf.2]

theorem pairwise_pos_transport {α β : Type} (f : α → Int) (g : β → Int)
    (l : List α) (l2 : List β) (h : l.map f = l2.map g)
    (hp : l2.Pairwise (fun a b => g a ≤ g b)) :
    l.Pairwise (fun a b => f a ≤ f b) := by
  have h1 : (l2.map g).Pairwise (fun a b => a ≤ b) := List.pairwise_map.mpr hp
  rw [← h] at h1
  exact List.pairwise_map.mp h1

theorem sorted_chapters (itemId base : Nat) (chs : List ChapterJson)
    (hp : chs.Pairwise (fun a b => a.position ≤ b.position)) :
    List.insertionSort posLeC (assignChapterIds itemId base chs)
      = assignChapterIds itemId base chs := by
  apply List.Sorted.insertionSort_eq
  exact pairwise_pos_transport (fun c : ChapterRow => c.position)
    (fun ch : ChapterJson => ch.position)
    _ chs (assignChapterIds_positions itemId base chs) hp

/-! ## Id bounds of the built rows -/

theorem buildItemsData_module_id (mid idx : Nat) (items : List ItemJson)
    (ds : List ItemData) (h : buildItemsData mid idx items = .ok ds) :
    ∀ d ∈ ds, d.module_id = mid := by
  induction items generalizing idx ds with
  | nil =>
    simp [buildItemsData] at h
    subst h
    intro d hd
    simp at hd
  | cons item rest ih =>
    unfold buildItemsData at h
    cases hd : itemDataOf mid idx item with
    | error e => rw [hd] at h; exact absurd h (by simp)
    | ok d0 =>
      rw [hd] at h
      cases hr : buildItemsData mid (idx + 1) rest with
      | error e => rw [hr] at h; exact absurd h (by simp)
      | ok ds2 =>
        rw [hr] at h
        simp only [Except.ok.injEq] at h
        subst h
        intro d hdm
        rcases List.mem_cons.mp hdm with rfl | hdm
        · unfold itemDataOf at hd
          cases hvt : validateItemType item.type with
          | error e => rw [hvt] at hd; exact absurd hd (by simp)
          | ok t =>
            rw [hvt] at hd
            simp only [Except.ok.injEq] at hd
            rw [← hd]
        · exact ih (idx + 1) ds2 hr d hdm

theorem assignItemIds_mem (b : Nat) (ds : List ItemData) :
    ∀ r ∈ assignItemIds b ds,
      b ≤ r.id ∧ r.id < b + ds.length ∧ ∃ d ∈ ds, r.module_id = d.module_id := by
  induction ds generalizing b with
  | nil => intro r hr; simp [assignItemIds] at hr
  | cons d rest ih =>
    intro r hr
    rcases List.mem_cons.mp hr with rfl | hr
    · exact ⟨Nat.le_refl _, by simp, d, List.mem_cons_self _ _, rfl⟩
    · obtain ⟨h1, h2, d2, hd2, h3⟩ := ih (b + 1) r hr
      exact ⟨by omega, by simp; omega, d2, List.mem_cons_of_mem _ hd2, h3⟩

theorem assignItemIds_ids (b : Nat) (ds : List ItemData) :
    (assignItemIds b ds).map (fun r => r.id) = List.range' b ds.length := by
  induction ds generalizing b with
  | nil => rfl
  | cons d rest ih => simp [assignItemIds, List.range'_succ, ih]

theorem buildChaptersRows_base_le (base : Nat) (ps : List (ItemRow × ItemJson)) :
    base ≤ (buildChaptersRows base ps).2 := by
  induction ps generalizing base with
  | nil => simp [buildChaptersRows]
  | cons p ps ih =>
    obtain ⟨savedItem, originalItem⟩ := p
    cases horig : originalItem.chapters with
    | none => simpa [buildChaptersRows, horig] using ih base
    | some chs =>
      by_cases hlen : chs.length > 0
      · have := ih (base + chs.length)
        simp only [buildChaptersRows, horig, if_pos hlen]
        omega
      · simpa [buildChaptersRows, horig, hlen] using ih base

theorem buildChaptersRows_item_ids (base : Nat) (ps : List (ItemRow × ItemJson)) :
    ∀ c ∈ (buildChaptersRows base ps).1, ∃ p ∈ ps, c.item_id = p.1.id := by
  induction ps generalizing base with
  | nil => intro c hc; simp [buildChaptersRows] at hc
  | cons p ps ih =>
    obtain ⟨savedItem, originalItem⟩ := p
    intro c hc
    cases horig : originalItem.chapters with
    | none =>
      rw [show (buildChaptersRows base ((savedItem, originalItem) :: ps)).1
          = (buildChaptersRows base ps).1 by simp [buildChaptersRows, horig]] at hc
      obtain ⟨p, hp, hcid⟩ := ih base c hc
      exact ⟨p, List.mem_cons_of_mem _ hp, hcid⟩
    | some chs =>
      by_cases hlen : chs.length > 0
      · rw [show (buildChaptersRows base ((savedItem, originalItem) :: ps)).1
            = assignChapterIds savedItem.id base chs
              ++ (buildChaptersRows (base + chs.length) ps).1 by
            simp [buildChaptersRows, horig, hlen]] at hc
        rcases List.mem_append.mp hc with hc | hc
        · exact ⟨(savedItem, originalItem), List.mem_cons_self _ _,
            assignChapterIds_item_id savedItem.id base chs c hc⟩
        · obtain ⟨p, hp, hcid⟩ := ih (base + chs.length) c hc
          exact ⟨p, List.mem_cons_of_mem _ hp, hcid⟩
      · rw [show (buildChaptersRows base ((savedItem, originalItem) :: ps)).1
            = (buildChaptersRows base ps).1 by
            simp [buildChaptersRows, horig, hlen]] at hc
        obtain ⟨p, hp, hcid⟩ := ih base c hc
        exact ⟨p, List.mem_cons_of_mem _ hp, hcid⟩

theorem buildModuleResult_bounds (cid base : Nat) (m : ModuleJson)
    (mrow : ModuleRow) (irows : List ItemRow) (crows : List ChapterRow)
    (fin : Nat) (h : buildModuleResult cid base m = some (mrow, irows, crows, fin)) :
    mrow.id = base ∧ mrow.course_id = cid ∧ base < fin
    ∧ (∀ r ∈ irows, r.module_id = base ∧ base < r.id ∧ r.id < fin)
    ∧ (∀ c ∈ crows, ∃ r ∈ irows, c.item_id = r.id) := by
  unfold buildModuleResult at h
  cases hitems : m.items with
  | none =>
    rw [hitems] at h
    dsimp only at h
    simp only [Option.some.injEq, Prod.mk.injEq] at h
    obtain ⟨h1, h2, h3, h4⟩ := h
    subst h1
    subst h2
    subst h3
    exact ⟨rfl, rfl, by omega, by simp, by simp⟩
  | some items =>
    rw [hitems] at h
    dsimp only at h
    by_cases hlen : items.length > 0
    · rw [if_pos hlen] at h
      cases hbuild : buildItemsData base 0 items with
      | error e => rw [hbuild] at h; exact absurd h (by simp)
      | ok ds =>
        rw [hbuild] at h
        dsimp only at h
        simp only [Option.some.injEq, Prod.mk.injEq] at h
        obtain ⟨h1, h2, h3, h4⟩ := h
        subst h1
        subst h2
        subst h3
        subst h4
        have hbase := buildChaptersRows_base_le (base + 1 + ds.length)
          ((assignItemIds (base + 1) ds).zip items)
        refine ⟨rfl, rfl, by omega, ?_, ?_⟩
        · intro r hr
          obtain ⟨g1, g2, d, hd, g3⟩ := assignItemIds_mem (base + 1) ds r hr
          have := buildItemsData_module_id base 0 items ds hbuild d hd
          refine ⟨by rw [g3, this], by omega, by omega⟩
        · intro c hc
          obtain ⟨p, hp, hcid⟩ := buildChaptersRows_item_ids _ _ c hc
          exact ⟨p.1, (List.of_mem_zip hp).1, hcid⟩
    · rw [if_neg hlen] at h
      simp only [Option.some.injEq, Prod.mk.injEq] at h
      obtain ⟨h1, h2, h3, h4⟩ := h
      subst h1
      subst h2
      subst h3
      exact ⟨rfl, rfl, by omega, by simp, by simp⟩

theorem buildModulesResult_bounds (cid : Nat) (mods : List ModuleJson) :
    ∀ (base : Nat) (mrows : List ModuleRow) (irows : List ItemRow)
      (crows : List ChapterRow) (fin : Nat),
      buildModulesResult cid base mods = some (mrows, irows, crows, fin) →
      base ≤ fin
      ∧ (∀ mr ∈ mrows, mr.course_id = cid ∧ base ≤ mr.id ∧ mr.id < fin)
      ∧ (∀ r ∈ irows, base ≤ r.module_id ∧ r.module_id < fin
          ∧ base ≤ r.id ∧ r.id < fin)
      ∧ (∀ c ∈ crows, base ≤ c.item_id ∧ c.item_id < fin) := by
  induction mods with
  | nil =>
    intro base mrows irows crows fin h
    simp only [buildModulesResult, Option.some.injEq, Prod.mk.injEq] at h
    obtain ⟨h1, h2, h3, h4⟩ := h
    subst h1
    subst h2
    subst h3
    subst h4
    exact ⟨Nat.le_refl _, by simp, by simp, by simp⟩
  | cons m rest ih =>
    intro base mrows irows crows fin h
    unfold buildModulesResult at h
    cases hbm : buildModuleResult cid base m with
    | none => rw [hbm] at h; exact absurd h (by simp)
    | some res =>
      obtain ⟨mrow, irows1, crows1, fin1⟩ := res
      rw [hbm] at h
      dsimp only at h
      cases hbr : buildModulesResult cid fin1 rest with
      | none => rw [hbr] at h; exact absurd h (by simp)
      | some res2 =>
        obtain ⟨mrows2, irows2, crows2, fin2⟩ := res2
        rw [hbr] at h
        simp only [Option.some.injEq, Prod.mk.injEq] at h
        obtain ⟨hA, hB, hC, hD⟩ := h
        subst hA
        subst hB
        subst hC
        subst hD
        obtain ⟨b1, b2, b3, b4, b5⟩ :=
          buildModuleResult_bounds cid base m mrow irows1 crows1 fin1 hbm
        obtain ⟨c1, c2, c3, c4⟩ := ih fin1 mrows2 irows2 crows2 fin2 hbr
        refine ⟨by omega, ?_, ?_, ?_⟩
        · intro mr hmr
          rcases List.mem_cons.mp hmr with rfl | hmr
          · exact ⟨b2, by omega, by omega⟩
          · obtain ⟨d1, d2, d3⟩ := c2 mr hmr
            exact ⟨d1, by omega, d3⟩
        · intro r hr
          rcases List.mem_append.mp hr with hr | hr
          · obtain ⟨d1, d2, d3⟩ := b4 r hr
            exact ⟨by omega, by omega, by omega, by omega⟩
          · obtain ⟨d1, d2, d3, d4⟩ := c3 r hr
            exact ⟨by omega, d2, by omega, d4⟩
        · intro c hc
          rcases List.mem_append.mp hc with hc | hc
          · obtain ⟨r, hrmem, hrid⟩ := b5 c hc
            obtain ⟨d1, d2, d3⟩ := b4 r hrmem
            exact ⟨by omega, by omega⟩
          · obtain ⟨d1, d2⟩ := c4 c hc
            exact ⟨by omega, d2⟩

/-- The chapter list the import actually inserts for an item (`none` and
empty lists insert nothing). -/
def chaptersListOf (o : ItemJson) : List ChapterJson :=
  match o.chapters with
  | some chs => if chs.length > 0 then chs else []
  | none => []

theorem buildChaptersRows_filter (ps : List (ItemRow × ItemJson)) :
    ∀ (base : Nat), (ps.map (fun p => p.1.id)).Nodup →
    ∀ p ∈ ps, ∃ b, (buildChaptersRows base ps).1.filter
        (fun c => c.item_id = p.1.id)
      = assignChapterIds p.1.id b (chaptersListOf p.2) := by
  induction ps with
  | nil => intro base _ p hp; simp at hp
  | cons q rest ih =>
    obtain ⟨r0, o0⟩ := q
    intro base hnd p hp
    simp only [List.map_cons, List.nodup_cons] at hnd
    obtain ⟨hr0, hndr⟩ := hnd
    have hrest_nil : ∀ (b2 : Nat) (k : Nat), k ∉ rest.map (fun p => p.1.id) →
        (buildChaptersRows b2 rest).1.filter (fun c => c.item_id = k) = [] := by
      intro b2 k hk
      rw [List.filter_eq_nil_iff]
      intro c hc
      obtain ⟨p2, hp2, hcid⟩ := buildChaptersRows_item_ids b2 rest c hc
      simp only [decide_eq_true_eq]
      intro hck
      exact hk (List.mem_map.mpr ⟨p2, hp2, by rw [← hcid, hck]⟩)
    rcases List.mem_cons.mp hp with rfl | hp
    · cases horig : o0.chapters with
      | none =>
        refine ⟨base, ?_⟩
        rw [show (buildChaptersRows base ((r0, o0) :: rest)).1
            = (buildChaptersRows base rest).1 by simp [buildChaptersRows, horig]]
        simp [chaptersListOf, horig, assignChapterIds,
          hrest_nil base r0.id hr0]
      | some chs =>
        by_cases hlen : chs.length > 0
        · refine ⟨base, ?_⟩
          rw [show (buildChaptersRows base ((r0, o0) :: rest)).1
              = assignChapterIds r0.id base chs
                ++ (buildChaptersRows (base + chs.length) rest).1 by
              simp [buildChaptersRows, horig, hlen]]
          rw [List.filter_append]
          rw [List.filter_eq_self.mpr (fun c hc => by
            simp [assignChapterIds_item_id r0.id base chs c hc])]
          rw [hrest_nil (base + chs.length) r0.id hr0]
          simp [chaptersListOf, horig, hlen]
        · refine ⟨base, ?_⟩
          rw [show (buildChaptersRows base ((r0, o0) :: rest)).1
              = (buildChaptersRows base rest).1 by
              simp [buildChaptersRows, horig, hlen]]
          simp [chaptersListOf, horig, hlen, assignChapterIds,
            hrest_nil base r0.id hr0]
    · have hpid : p.1.id ∈ rest.map (fun p => p.1.id) :=
        List.mem_map.mpr ⟨p, hp, rfl⟩
      have hne : r0.id ≠ p.1.id := by
        intro hh
        exact hr0 (hh ▸ hpid)
      cases horig : o0.chapters with
      | none =>
        rw [show (buildChaptersRows base ((r0, o0) :: rest)).1
            = (buildChaptersRows base rest).1 by simp [buildChaptersRows, horig]]
        exact ih base hndr p hp
      | some chs =>
        by_cases hlen : chs.length > 0
        · obtain ⟨b, hb⟩ := ih (base + chs.length) hndr p hp
          refine ⟨b, ?_⟩
          rw [show (buildChaptersRows base ((r0, o0) :: rest)).1
              = assignChapterIds r0.id base chs
                ++ (buildChaptersRows (base + chs.length) rest).1 by
              simp [buildChaptersRows, horig, hlen]]
          rw [List.filter_append]
          rw [List.filter_eq_nil_iff.mpr (fun c hc => by
            have := assignChapterIds_item_id r0.id base chs c hc
            simp only [decide_eq_true_eq]
            intro hck
            exact hne (by rw [← this, hck]))]
          simpa using hb
        · rw [show (buildChaptersRows base ((r0, o0) :: rest)).1
              = (buildChaptersRows base rest).1 by
              simp [buildChaptersRows, horig, hlen]]
          exact ih base hndr p hp

theorem published_decide (b : Bool) : decide (some b ≠ some false) = b := by
  cases b <;> decide

theorem exportItem_eq (stF : Store) (it : ItemJson) (d : ItemData)
    (mid idx rid : Nat)
    (hd : itemDataOf mid idx it = .ok d)
    (hwf : wfItemJson it = true)
    (hch : ∃ b, stF.chapters.filter (fun c => c.item_id = rid)
        = assignChapterIds rid b (chaptersListOf it)) :
    exportItem stF
      { id := rid, module_id := d.module_id, type := d.type, title := d.title,
        position := d.position, published := d.published, content := d.content,
        asset_path := d.asset_path, external_url := d.external_url } = it := by
  obtain ⟨b, hb⟩ := hch
  obtain ⟨itype, ititle, ipos, ipub, icontent, iasset, iext, ichapters⟩ := it
  simp only [wfItemJson, Bool.and_eq_true] at hwf
  obtain ⟨⟨⟨⟨⟨⟨⟨hty, htt⟩, hps⟩, hpb⟩, hct⟩, has⟩, hex⟩, hch2⟩ := hwf
  cases hty2 : itype with
  | none => rw [hty2] at hty; simp at hty
  | some s =>
  rw [hty2] at hty
  simp only at hty
  cases htt2 : ititle with
  | none => rw [htt2] at htt; simp at htt
  | some ttl =>
  rw [htt2] at htt
  simp only [bne_iff_ne, ne_eq] at htt
  obtain ⟨pos, hps2⟩ := Option.isSome_iff_exists.mp hps
  obtain ⟨pb, hpb2⟩ := Option.isSome_iff_exists.mp hpb
  cases hct2 : icontent with
  | none => rw [hct2] at hct; simp at hct
  | some c =>
  rw [hct2] at hct
  simp only at hct
  obtain ⟨t, hvt, hts⟩ := canonical_validate s hty
  unfold itemDataOf at hd
  rw [hty2, htt2, hps2, hpb2, hct2] at hd
  rw [hvt] at hd
  simp only [Except.ok.injEq] at hd
  subst hd
  subst hty2
  subst htt2
  subst hps2
  subst hpb2
  subst hct2
  unfold exportItem
  cases ichapters with
  | none =>
    rw [hb]
    simp [chaptersListOf, assignChapterIds, hts, jsStrOr, htt, jsOr, hct,
      published_decide, strOrNone_wf _ has, strOrNone_wf _ hex,
      List.insertionSort]
  | some chs0 =>
    simp only [Bool.and_eq_true, decide_eq_true_eq] at hch2
    obtain ⟨⟨hlen, hall⟩, hpw⟩ := hch2
    have hcl : chaptersListOf
        { type := some s, title := some ttl, position := some pos,
          published := some pb, content := some c, asset_path := iasset,
          external_url := iext, chapters := some chs0 } = chs0 := by
      simp [chaptersListOf, hlen]
    rw [hcl] at hb
    rw [hb]
    rw [sorted_chapters rid b chs0 hpw]
    have hlen2 : (assignChapterIds rid b chs0).length = chs0.length :=
      assignChapterIds_length rid b chs0
    have hne : ¬ ((assignChapterIds rid b chs0).length = 0) := by omega
    dsimp only
    rw [if_neg hne]
    simp [map_exportChapter_assign rid b chs0 hall, hts, jsStrOr, htt,
      jsOr, hct, published_decide, strOrNone_wf _ has, strOrNone_wf _ hex]

theorem map_exportItem_eq (stF : Store) (mid : Nat) (items : List ItemJson) :
    ∀ (ds : List ItemData) (idx b : Nat),
      buildItemsData mid idx items = .ok ds →
      items.all wfItemJson = true →
      (∀ p ∈ (assignItemIds b ds).zip items,
        ∃ bk, stF.chapters.filter (fun c => c.item_id = p.1.id)
          = assignChapterIds p.1.id bk (chaptersListOf p.2)) →
      (assignItemIds b ds).map (exportItem stF) = items := by
  induction items with
  | nil =>
    intro ds idx b h _ _
    simp [buildItemsData] at h
    subst h
    rfl
  | cons it rest ih =>
    intro ds idx b h hwf hch
    unfold buildItemsData at h
    cases hd : itemDataOf mid idx it with
    | error e => rw [hd] at h; exact absurd h (by simp)
    | ok d =>
      rw [hd] at h
      cases hr : buildItemsData mid (idx + 1) rest with
      | error e => rw [hr] at h; exact absurd h (by simp)
      | ok ds2 =>
        rw [hr] at h
        simp only [Except.ok.injEq] at h
        subst h
        simp only [List.all_cons, Bool.and_eq_true] at hwf
        have hzip : (assignItemIds b (d :: ds2)).zip (it :: rest)
            = ({ id := b, module_id := d.module_id, type := d.type,
                 title := d.title, position := d.position,
                 published := d.published, content := d.content,
                 asset_path := d.asset_path, external_url := d.external_url }, it)
              :: (assignItemIds (b + 1) ds2).zip rest := rfl
        show exportItem stF _ :: (assignItemIds (b + 1) ds2).map (exportItem stF)
          = it :: rest
        rw [exportItem_eq stF it d mid idx b hd hwf.1
          (hch ({ id := b, module_id := d.module_id, type := d.type,
                  title := d.title, position := d.position,
                  published := d.published, content := d.content,
                  asset_path := d.asset_path, external_url := d.external_url }, it)
            (by rw [hzip]; exact List.mem_cons_self _ _))]
        rw [ih ds2 (idx + 1) (b + 1) hr hwf.2
          (fun p hp => hch p (by rw [hzip]; exact List.mem_cons_of_mem _ hp))]

theorem ds_positions_wf (mid : Nat) (items : List ItemJson) :
    ∀ (ds : List ItemData) (idx : Nat),
      buildItemsData mid idx items = .ok ds →
      items.all wfItemJson = true →
      ds.map (fun d => d.position) = items.map (fun it => it.position.getD 0) := by
  induction items with
  | nil =>
    intro ds idx h _
    simp [buildItemsData] at h
    simp [← h]
  | cons it rest ih =>
    intro ds idx h hwf
    unfold buildItemsData at h
    cases hd : itemDataOf mid idx it with
    | error e => rw [hd] at h; exact absurd h (by simp)
    | ok d =>
      rw [hd] at h
      cases hr : buildItemsData mid (idx + 1) rest with
      | error e => rw [hr] at h; exact absurd h (by simp)
      | ok ds2 =>
        rw [hr] at h
        simp only [Except.ok.injEq] at h
        subst h
        simp only [List.all_cons, Bool.and_eq_true] at hwf
        have hpos : d.position = it.position.getD 0 := by
          unfold itemDataOf at hd
          cases hvt : validateItemType it.type with
          | error e => rw [hvt] at hd; exact absurd hd (by simp)
          | ok t =>
            rw [hvt] at hd
            simp only [Except.ok.injEq] at hd
            subst hd
            obtain ⟨pos, hp⟩ := Option.isSome_iff_exists.mp (by
              simp only [wfItemJson, Bool.and_eq_true] at hwf
              exact hwf.1.1.1.1.1.1.2)
            simp [hp]
        simp [hpos, ih ds2 (idx + 1) hr hwf.2]

theorem zip_map_fst_id (l1 : List ItemRow) (l2 : List ItemJson)
    (h : l1.length = l2.length) :
    (l1.zip l2).map (fun p => p.1.id) = l1.map (fun r => r.id) := by
  induction l1 generalizing l2 with
  | nil => rfl
  | cons a as ihz =>
    cases l2 with
    | nil => simp at h
    | cons b bs =>
      simp only [List.length_cons, Nat.add_right_cancel_iff] at h
      simp [List.zip_cons_cons, ihz bs h]

theorem buildModuleResult_chapters_filter (cid base : Nat) (m : ModuleJson)
    (mrow : ModuleRow) (irows : List ItemRow) (crows : List ChapterRow)
    (fin : Nat) (h : buildModuleResult cid base m = some (mrow, irows, crows, fin)) :
    ∀ p ∈ irows.zip (m.items.getD []),
      ∃ bk, crows.filter (fun c => c.item_id = p.1.id)
        = assignChapterIds p.1.id bk (chaptersListOf p.2) := by
  unfold buildModuleResult at h
  cases hitems : m.items with
  | none =>
    rw [hitems] at h
    dsimp only at h
    simp only [Option.some.injEq, Prod.mk.injEq] at h
    obtain ⟨h1, h2, h3, h4⟩ := h
    subst h2
    intro p hp
    simp at hp
  | some items =>
    rw [hitems] at h
    dsimp only at h
    by_cases hlen : items.length > 0
    · rw [if_pos hlen] at h
      cases hbuild : buildItemsData base 0 items with
      | error e => rw [hbuild] at h; exact absurd h (by simp)
      | ok ds =>
        rw [hbuild] at h
        dsimp only at h
        simp only [Option.some.injEq, Prod.mk.injEq] at h
        obtain ⟨h1, h2, h3, h4⟩ := h
        subst h2
        subst h3
        intro p hp
        have hlens : (assignItemIds (base + 1) ds).length = items.length := by
          rw [assignItemIds_length, buildItemsData_length base 0 items ds hbuild]
        have hnd : (((assignItemIds (base + 1) ds).zip items).map
            (fun p => p.1.id)).Nodup := by
          rw [zip_map_fst_id _ _ hlens, assignItemIds_ids]
          exact List.nodup_range' (base + 1) ds.length
        simp only [hitems, Option.getD_some] at hp
        exact buildChaptersRows_filter _ _ hnd p hp
    · rw [if_neg hlen] at h
      have : items = [] := List.length_eq_zero.mp (by omega)
      subst this
      simp only [Option.some.injEq, Prod.mk.injEq] at h
      obtain ⟨h1, h2, h3, h4⟩ := h
      subst h2
      intro p hp
      simp at hp

theorem exportModule_eq (stF : Store) (cid base : Nat) (m : ModuleJson)
    (mrow : ModuleRow) (irows : List ItemRow) (crows : List ChapterRow)
    (fin : Nat)
    (hb : buildModuleResult cid base m = some (mrow, irows, crows, fin))
    (hwf : wfModuleJson m = true)
    (hitems : stF.items.filter (fun r => r.module_id = base) = irows)
    (hch : ∀ p ∈ irows.zip (m.items.getD []),
      ∃ bk, stF.chapters.filter (fun c => c.item_id = p.1.id)
        = assignChapterIds p.1.id bk (chaptersListOf p.2)) :
    exportModule stF mrow = m := by
  obtain ⟨mtitle, mpos, mitems⟩ := m
  unfold wfModuleJson at hwf
  cases mitems with
  | none => simp at hwf
  | some items =>
  simp only [Bool.and_eq_true, decide_eq_true_eq] at hwf
  obtain ⟨hall, hpw⟩ := hwf
  unfold buildModuleResult at hb
  dsimp only at hb
  by_cases hlen : items.length > 0
  · rw [if_pos hlen] at hb
    cases hbuild : buildItemsData base 0 items with
    | error e => rw [hbuild] at hb; exact absurd hb (by simp)
    | ok ds =>
      rw [hbuild] at hb
      dsimp only at hb
      simp only [Option.some.injEq, Prod.mk.injEq] at hb
      obtain ⟨h1, h2, h3, h4⟩ := hb
      subst h1
      subst h2
      unfold exportModule
      dsimp only
      rw [hitems]
      have hsort : List.insertionSort posLeI (assignItemIds (base + 1) ds)
          = assignItemIds (base + 1) ds := by
        apply List.Sorted.insertionSort_eq
        apply pairwise_pos_transport (fun r : ItemRow => r.position)
          (fun it : ItemJson => it.position.getD 0) _ items
        · rw [assignItemIds_positions, ds_positions_wf base items ds 0 hbuild hall]
        · exact hpw
      rw [hsort]
      rw [map_exportItem_eq stF base items ds 0 (base + 1) hbuild hall
        (fun p hp => hch p (by simpa using hp))]
  · rw [if_neg hlen] at hb
    have : items = [] := List.length_eq_zero.mp (by omega)
    subst this
    simp only [Option.some.injEq, Prod.mk.injEq] at hb
    obtain ⟨h1, h2, h3, h4⟩ := hb
    subst h1
    subst h2
    unfold exportModule
    dsimp only
    rw [hitems]
    rfl

theorem map_exportModule_eq (stF : Store) (cid : Nat) (mods : List ModuleJson) :
    ∀ (base : Nat) (mrows : List ModuleRow) (irows : List ItemRow)
      (crows : List ChapterRow) (fin : Nat),
      buildModulesResult cid base mods = some (mrows, irows, crows, fin) →
      mods.all wfModuleJson = true →
      (∀ n, base ≤ n → n < fin →
        stF.items.filter (fun r => r.module_id = n)
          = irows.filter (fun r => r.module_id = n)) →
      (∀ n, base ≤ n → n < fin →
        stF.chapters.filter (fun c => c.item_id = n)
          = crows.filter (fun c => c.item_id = n)) →
      mrows.map (exportModule stF) = mods := by
  induction mods with
  | nil =>
    intro base mrows irows crows fin h _ _ _
    simp only [buildModulesResult, Option.some.injEq, Prod.mk.injEq] at h
    obtain ⟨h1, _, _, _⟩ := h
    simp [← h1]
  | cons m rest ih =>
    intro base mrows irows crows fin h hwf hfi hfc
    simp only [List.all_cons, Bool.and_eq_true] at hwf
    obtain ⟨hwf1, hwfr⟩ := hwf
    unfold buildModulesResult at h
    cases hbm : buildModuleResult cid base m with
    | none => rw [hbm] at h; exact absurd h (by simp)
    | some res =>
      obtain ⟨mrow, irows1, crows1, fin1⟩ := res
      rw [hbm] at h
      dsimp only at h
      cases hbr : buildModulesResult cid fin1 rest with
      | none => rw [hbr] at h; exact absurd h (by simp)
      | some res2 =>
        obtain ⟨mrows2, irows2, crows2, fin2⟩ := res2
        rw [hbr] at h
        simp only [Option.some.injEq, Prod.mk.injEq] at h
        obtain ⟨hA, hB, hC, hD⟩ := h
        subst hA
        subst hB
        subst hC
        subst hD
        obtain ⟨hid, hcid, hbf1, hirows1, hcrows1⟩ :=
          buildModuleResult_bounds cid base m mrow irows1 crows1 fin1 hbm
        obtain ⟨hf1f2, hmrows2, hirows2, hcrows2⟩ :=
          buildModulesResult_bounds cid rest fin1 mrows2 irows2 crows2 fin2 hbr
        have hitems1 : stF.items.filter (fun r => r.module_id = base) = irows1 := by
          have hself : irows1.filter (fun r => r.module_id = base) = irows1 :=
            List.filter_eq_self.mpr (fun r hr => by simp [(hirows1 r hr).1])
          have hnil : irows2.filter (fun r => r.module_id = base) = [] :=
            List.filter_eq_nil_iff.mpr (fun r hr => by
              obtain ⟨g1, _, _, _⟩ := hirows2 r hr
              simp only [decide_eq_true_eq]
              omega)
          rw [hfi base (Nat.le_refl _) (by omega), List.filter_append, hself, hnil]
          simp
        have hch1 : ∀ p ∈ irows1.zip (m.items.getD []),
            ∃ bk, stF.chapters.filter (fun c => c.item_id = p.1.id)
              = assignChapterIds p.1.id bk (chaptersListOf p.2) := by
          intro p hp
          obtain ⟨hmid, hidlo, hidhi⟩ := hirows1 p.1 (List.of_mem_zip hp).1
          have h0 := hfc p.1.id (by omega) (by omega)
          have hnil2 : crows2.filter (fun c => c.item_id = p.1.id) = [] :=
            List.filter_eq_nil_iff.mpr (fun c hc => by
              obtain ⟨g1, _⟩ := hcrows2 c hc
              simp only [decide_eq_true_eq]
              omega)
          rw [List.filter_append, hnil2, List.append_nil] at h0
          obtain ⟨bk, hbk⟩ := buildModuleResult_chapters_filter cid base m mrow
            irows1 crows1 fin1 hbm p hp
          exact ⟨bk, by rw [h0, hbk]⟩
        have hhead := exportModule_eq stF cid base m mrow irows1 crows1 fin1
          hbm hwf1 hitems1 hch1
        have htail := ih fin1 mrows2 irows2 crows2 fin2 hbr hwfr
          (fun n hn1 hn2 => by
            have hnil1 : irows1.filter (fun r => r.module_id = n) = [] :=
              List.filter_eq_nil_iff.mpr (fun r hr => by
                obtain ⟨g1, _, _⟩ := hirows1 r hr
                simp only [decide_eq_true_eq]
                omega)
            rw [hfi n (by omega) hn2, List.filter_append, hnil1]
            simp)
          (fun n hn1 hn2 => by
            have hnil1 : crows1.filter (fun c => c.item_id = n) = [] :=
              List.filter_eq_nil_iff.mpr (fun c hc => by
                obtain ⟨r, hrmem, hrid⟩ := hcrows1 c hc
                obtain ⟨_, _, g3⟩ := hirows1 r hrmem
                simp only [decide_eq_true_eq]
                omega)
            rw [hfc n (by omega) hn2, List.filter_append, hnil1]
            simp)
        simp [hhead, htail]

theorem buildItemsData_wf_ok (mid : Nat) (items : List ItemJson)
    (hwf : items.all wfItemJson = true) :
    ∀ idx, ∃ ds, buildItemsData mid idx items = .ok ds := by
  induction items with
  | nil => intro idx; exact ⟨[], rfl⟩
  | cons it rest ih =>
    intro idx
    simp only [List.all_cons, Bool.and_eq_true] at hwf
    have hty : ∃ s, it.type = some s ∧ canonicalTypes.contains s = true := by
      have h1 := hwf.1
      simp only [wfItemJson, Bool.and_eq_true] at h1
      have h2 := h1.1.1.1.1.1.1.1
      cases hty2 : it.type with
      | none => rw [hty2] at h2; simp at h2
      | some s => rw [hty2] at h2; exact ⟨s, rfl, h2⟩
    obtain ⟨s, hs, hcs⟩ := hty
    obtain ⟨t, hvt, _⟩ := canonical_validate s hcs
    obtain ⟨ds2, hds2⟩ := ih hwf.2 (idx + 1)
    have hhead : ∃ d, itemDataOf mid idx it = .ok d := by
      unfold itemDataOf
      rw [hs, hvt]
      exact ⟨_, rfl⟩
    obtain ⟨d, hd⟩ := hhead
    refine ⟨d :: ds2, ?_⟩
    unfold buildItemsData
    rw [hd, hds2]

theorem buildModulesResult_wf_some (cid : Nat) (mods : List ModuleJson)
    (hwf : mods.all wfModuleJson = true) :
    ∀ base, ∃ res, buildModulesResult cid base mods = some res := by
  induction mods with
  | nil => intro base; exact ⟨([], [], [], base), rfl⟩
  | cons m rest ih =>
    intro base
    simp only [List.all_cons, Bool.and_eq_true] at hwf
    have hm : ∃ r1, buildModuleResult cid base m = some r1 := by
      unfold buildModuleResult
      cases hitems : m.items with
      | none => exact ⟨_, rfl⟩
      | some items =>
        dsimp only
        by_cases hlen : items.length > 0
        · have hall : items.all wfItemJson = true := by
            have h1 := hwf.1
            simp only [wfModuleJson, hitems, Bool.and_eq_true] at h1
            exact h1.1
          obtain ⟨ds, hds⟩ := buildItemsData_wf_ok base items hall 0
          rw [if_pos hlen, hds]
          exact ⟨_, rfl⟩
        · rw [if_neg hlen]
          exact ⟨_, rfl⟩
    obtain ⟨⟨mrow, irows1, crows1, fin1⟩, hm1⟩ := hm
    obtain ⟨r2, hr2⟩ := ih hwf.2 fin1
    obtain ⟨mrows2, irows2, crows2, fin2⟩ := r2
    refine ⟨(mrow :: mrows2, irows1 ++ irows2, crows1 ++ crows2, fin2), ?_⟩
    unfold buildModulesResult
    rw [hm1]
    dsimp only
    rw [hr2]

/-- C2 (amended): on documents in export normal form (`wfCourseJson`),
importing into a fresh course and exporting reproduces the document
exactly. -/
theorem export_import_round_trip (doc : CourseJson) (uid : String)
    (hwf : wfCourseJson doc = true) :
    (handleSave emptyStore [] uid none doc).2 = .ok 0
    ∧ exportCourse (handleSave emptyStore [] uid none doc).1 0 = some doc := by
  obtain ⟨dtitle, ddesc, dstatus, daccess, dprice, dcurr, dtheme, dmods⟩ := doc
  simp only [wfCourseJson, Bool.and_eq_true, beq_iff_eq, decide_eq_true_eq] at hwf
  obtain ⟨⟨⟨⟨⟨hdesc, hprice⟩, hcurr⟩, htheme⟩, hmods⟩, hpw⟩ := hwf
  subst htheme
  obtain ⟨dd, hdd⟩ := Option.isSome_iff_exists.mp hdesc
  subst hdd
  cases dcurr with
  | none => exact absurd hcurr (by simp)
  | some cur =>
  simp only [bne_iff_ne, ne_eq] at hcurr
  obtain ⟨res, hbm⟩ := buildModulesResult_wf_some 0 dmods hmods 1
  obtain ⟨mrows, irows, crows, fin⟩ := res
  set st1 : Store :=
    { courses := [
        { id := 0, title := dtitle, description := some dd, status := dstatus,
          access_type := daccess, price_cents := intOrNone dprice,
          currency := some (jsStrOr (some cur) "EUR"),
          is_paid := decide (daccess = "paid"), created_by := uid }],
      modules := [], items := [], chapters := [],
      nextId := 1, opCount := 1 } with hst1
  have hcreate : createCourseRow [] emptyStore
      (courseDataOf
        { title := dtitle, description := some dd, status := dstatus,
          access_type := daccess, price_cents := dprice, currency := some cur,
          theme := none, modules := dmods } uid)
      = (st1, .ok 0) := by
    simp [createCourseRow, emptyStore, courseDataOf, hst1]
  have hrun := importModules_run dmods st1 0
  have hnext : st1.nextId = 1 := rfl
  rw [hnext, hbm] at hrun
  dsimp only at hrun
  obtain ⟨hok, hcs, hms, his, hchs, hnid⟩ := hrun
  cases hfin : importModules [] st1 0 dmods with
  | mk stF r =>
    rw [hfin] at hok hcs hms his hchs
    dsimp only at hok hcs hms his hchs
    subst hok
    have hms1 : stF.modules = mrows := by
      rw [hms]
      simp
    have his1 : stF.items = irows := by
      rw [his]
      simp
    have hchs1 : stF.chapters = crows := by
      rw [hchs]
      simp
    have hsave : handleSave emptyStore [] uid none
        { title := dtitle, description := some dd, status := dstatus,
          access_type := daccess, price_cents := dprice, currency := some cur,
          theme := none, modules := dmods } = (stF, .ok 0) := by
      unfold handleSave
      dsimp only
      rw [hcreate]
      simp only [Option.isSome_none, Bool.false_eq_true, if_false]
      rw [hfin]
    rw [hsave]
    refine ⟨rfl, ?_⟩
    have hfind : stF.courses.find? (fun c => c.id = 0)
        = some { id := 0, title := dtitle, description := some dd,
                 status := dstatus, access_type := daccess,
                 price_cents := intOrNone dprice,
                 currency := some (jsStrOr (some cur) "EUR"),
                 is_paid := decide (daccess = "paid"), created_by := uid } := by
      rw [hcs]
      rfl
    unfold exportCourse
    rw [hfind]
    dsimp only
    obtain ⟨hbound, hmrb, hirb, hcrb⟩ :=
      buildModulesResult_bounds 0 dmods 1 mrows irows crows fin hbm
    obtain ⟨hp1, _, _⟩ :=
      buildModulesResult_positions 0 1 dmods mrows irows crows fin hbm
    have hfilterm : stF.modules.filter (fun m => m.course_id = 0) = mrows := by
      rw [hms1]
      exact List.filter_eq_self.mpr (fun mr hmr => by simp [(hmrb mr hmr).1])
    rw [hfilterm]
    have hsortm : List.insertionSort posLeM mrows = mrows := by
      apply List.Sorted.insertionSort_eq
      exact pairwise_pos_transport (fun mr : ModuleRow => mr.position)
        (fun m : ModuleJson => m.position) mrows dmods hp1 hpw
    rw [hsortm]
    have hmapm : mrows.map (exportModule stF) = dmods := by
      apply map_exportModule_eq stF 0 dmods 1 mrows irows crows fin hbm hmods
      · intro n _ _
        rw [his1]
      · intro n _ _
        rw [hchs1]
    rw [hmapm]
    have hpc : intOrNone (intOrNone dprice) = dprice := by
      rw [intOrNone_wf dprice hprice, intOrNone_wf dprice hprice]
    have hcur2 : strOrNone (some (jsStrOr (some cur) "EUR")) = some cur := by
      have hjs : jsStrOr (some cur) "EUR" = cur := by simp [jsStrOr, hcurr]
      rw [hjs]
      simp [strOrNone, hcurr]
    simp [hpc, hcur2]

/-- C2 counterexample: a document with a `game` chapter does not round-trip
— export drops the chapter kind and the `game_content` entirely. -/
theorem round_trip_drops_game_chapters :
    (exportCourse (handleSave emptyStore [] "u" none
        (c4DocWith badGamePayload)).1 0) ≠ some (c4DocWith badGamePayload)
    ∧ (Option.map (fun d => d.modules.map (fun m => (m.items.getD []).map
        (fun it => (it.chapters.getD []).map
          (fun ch => (ch.type, ch.game_content)))))
       (exportCourse (handleSave emptyStore [] "u" none
          (c4DocWith badGamePayload)).1 0))
      = some [[[(none, none)]]]
    ∧ (c4DocWith badGamePayload).modules.map (fun m => (m.items.getD []).map
        (fun it => (it.chapters.getD []).map
          (fun ch => (ch.type, ch.game_content))))
      = [[[(some "game", some badGamePayload)]]] := by
  refine ⟨by decide, by decide, by decide⟩

/-- A representative document in export normal form: two modules, a
content-chaptered exercise item (one chapter body, one empty body) and an
unpublished game item. -/
def c2WfDoc : CourseJson :=
  { title := "RT", description := some "desc", status := "published",
    access_type := "paid", price_cents := some 1000, currency := some "USD",
    theme := none,
    modules := [
      { title := "M1", position := 0,
        items := some [
          { type := some "exercise", title := some "I1", position := some 0,
            published := some true, content := some (.obj [("k", .str "v")]),
            asset_path := some "docs/a.pdf", external_url := none,
            chapters := some [
              { title := some "C1", position := 0,
                content := some (.obj [("t", .str "x")]), type := none,
                game_content := none, published := none },
              { title := some "C2", position := 1,
                content := none, type := none, game_content := none,
                published := none } ] },
          { type := some "game", title := some "I2", position := some 1,
            published := some false,
            content := some (.obj [("gameType", .str "matching")]),
            asset_path := none, external_url := some "https://example.org",
            chapters := none } ] },
      { title := "M2", position := 1, items := some [] } ] }

/-- Witness for C2: the amended round-trip theorem applied to the concrete
document `c2WfDoc`. -/
theorem export_import_round_trip_witness :
    (handleSave emptyStore [] "u" none c2WfDoc).2 = .ok 0
    ∧ exportCourse (handleSave emptyStore [] "u" none c2WfDoc).1 0
      = some c2WfDoc :=
  export_import_round_trip c2WfDoc "u" (by decide)

end Portal
